import Mathlib

/-!
Verification of the back-ldbm in-memory entry cache (`cache.c`).

The cache holds directory entries indexed two ways (an ordered name index
and an ordered id index), keeps a doubly linked LRU list, a per-entry
slot (`ldbm_entry_info`, attached through `e_private`) with a lifecycle
state, a reference count and a reader/writer lock, and evicts from the
LRU tail when `c_cursize` exceeds `c_maxsize`.

The embedding below is a shallow model of `cache.c`:
* heap pointers (`Entry *`) become natural-number references `Ref`;
  the immutable payload of a reference (its `e_id` and normalized name
  `e_nname`) is given by an environment `P : Ref → Payload`;
* the two AVL trees become lists of references ordered by insertion,
  where `avl_insert` with `avl_dup_error` fails exactly when an element
  comparing equal (same name, resp. same id) is already present, and
  `avl_delete` removes the first element comparing equal;
* the LRU list becomes a `List Ref` (head = most recently used); the
  `LRU_ADD` / `LRU_DELETE` macros become cons / erase;
* `e_private` becomes a partial map `c_info : Ref → Option EntryInfo`;
* the per-entry reader/writer lock is a pair (reader count, writer flag);
* `entry_free` is recorded in a `c_freed` log so that theorems can speak
  about which payloads the cache released;
* the `while` loops of the eviction and drain paths are modelled with
  explicit fuel; the callers pass the length of the LRU list, which
  bounds the number of iterations the C loop can perform in any
  well-formed state.
-/

set_option maxHeartbeats 1000000
set_option linter.unusedVariables false

namespace LdbmCache

/-- A heap reference standing for an `Entry *`. -/
abbrev Ref := Nat

/-- The `ID` type of entry identifiers. -/
abbrev EntryID := Nat

/-- The reserved identifier meaning "no such entry". -/
def NOID : EntryID := 0

/-- The cache-relevant payload of an `Entry`: its id and normalized name. -/
structure Payload where
  e_id : EntryID
  e_nname : String
deriving DecidableEq

/-- The `lei_state` lifecycle values of `ldbm_entry_info`. -/
inductive CState where
  | undefined
  | creating
  | ready
  | deleted
  | committed
deriving DecidableEq

/-- The `ldbm_entry_info` slot attached through `e_private`:
lifecycle state, reference count (a C `int`), and the reader/writer
lock `lei_rdwr`, modelled as a reader count plus a writer flag. -/
structure EntryInfo where
  lei_state : CState
  lei_refcnt : Int
  lei_readers : Nat
  lei_writer : Bool
deriving DecidableEq

/-- The `Cache` container: the two indexes, the LRU list (head first),
the size counters, the `e_private` map, and the log of payloads passed
to `entry_free`. -/
structure Cache where
  c_dntree : List Ref
  c_idtree : List Ref
  c_lru : List Ref
  c_cursize : Int
  c_maxsize : Int
  c_info : Ref → Option EntryInfo
  c_freed : List Ref

/-- The empty cache produced by opening the backend with bound `maxsize`. -/
def cacheInit (maxsize : Int) : Cache :=
  { c_dntree := [], c_idtree := [], c_lru := [], c_cursize := 0,
    c_maxsize := maxsize, c_info := fun _ => none, c_freed := [] }

/-- Point update of the `e_private` map. -/
def setInfoFn (f : Ref → Option EntryInfo) (e : Ref) (v : Option EntryInfo) :
    Ref → Option EntryInfo :=
  fun r => if r = e then v else f r

def putInfo (c : Cache) (e : Ref) (v : EntryInfo) : Cache :=
  { c with c_info := setInfoFn c.c_info e (some v) }

def delInfo (c : Cache) (e : Ref) : Cache :=
  { c with c_info := setInfoFn c.c_info e none }

def modInfo (c : Cache) (e : Ref) (f : EntryInfo → EntryInfo) : Cache :=
  { c with c_info := setInfoFn c.c_info e ((c.c_info e).map f) }

/-- `LEI(e)->lei_state`, when `e_private` is attached. -/
def stateOf (c : Cache) (e : Ref) : Option CState :=
  (c.c_info e).map EntryInfo.lei_state

/-- `LEI(e)->lei_refcnt` (0 when no slot is attached; dereferencing a
null `e_private` is undefined behaviour in the C source and excluded by
the well-formedness preconditions of every theorem that uses this). -/
def refcntOf (c : Cache) (e : Ref) : Int :=
  match c.c_info e with
  | some i => i.lei_refcnt
  | none => 0

def readersOf (c : Cache) (e : Ref) : Nat :=
  match c.c_info e with
  | some i => i.lei_readers
  | none => 0

def writerOf (c : Cache) (e : Ref) : Bool :=
  match c.c_info e with
  | some i => i.lei_writer
  | none => false

/-- `cache_entry_rdwr_lock`: blocking acquire of `lei_rdwr` (in the
source this is only called on a freshly attached, uncontended slot). -/
def cache_entry_rdwr_lock (c : Cache) (e : Ref) (rw : Bool) : Cache :=
  modInfo c e (fun i =>
    if rw then { i with lei_writer := true }
    else { i with lei_readers := i.lei_readers + 1 })

/-- Whether `cache_entry_rdwr_trylock` would report `EBUSY`. -/
def trylockBusy (c : Cache) (e : Ref) (rw : Bool) : Bool :=
  if rw then writerOf c e || decide (0 < readersOf c e)
  else writerOf c e

/-- `cache_entry_rdwr_unlock`. -/
def cache_entry_rdwr_unlock (c : Cache) (e : Ref) (rw : Bool) : Cache :=
  modInfo c e (fun i =>
    if rw then { i with lei_writer := false }
    else { i with lei_readers := i.lei_readers - 1 })

/-- Does the caller hold `lei_rdwr` in mode `rw`? -/
def lockHeld (c : Cache) (e : Ref) (rw : Bool) : Bool :=
  if rw then writerOf c e else decide (0 < readersOf c e)

/-- `cache_entry_private_init`: attach a zeroed slot (`ch_calloc`),
failing (return 1) if `e_private` is already attached. -/
def cache_entry_private_init (c : Cache) (e : Ref) : Int × Cache :=
  if (c.c_info e).isSome then (1, c)
  else (0, putInfo c e
    { lei_state := CState.undefined, lei_refcnt := 0,
      lei_readers := 0, lei_writer := false })

/-- `cache_entry_private_destroy`: destroy the lock and free the slot. -/
def cache_entry_private_destroy (c : Cache) (e : Ref) : Cache :=
  delInfo c e

/-- Set `LEI(e)->lei_state`. -/
def setState (c : Cache) (e : Ref) (s : CState) : Cache :=
  modInfo c e (fun i => { i with lei_state := s })

/-- `cache_entry_commit`: mark a `CREATING` entry as `COMMITTED`.
The source asserts `lei_state == CACHE_ENTRY_CREATING`. -/
def cache_entry_commit (c : Cache) (e : Ref) : Cache :=
  setState c e CState.committed

/-- The comparator `entry_dn_cmp` specialised to equality with `e`. -/
def entry_dn_match (P : Ref → Payload) (e : Ref) : Ref → Bool :=
  fun r => (P r).e_nname == (P e).e_nname

/-- The comparator `entry_id_cmp` specialised to equality with `e`. -/
def entry_id_match (P : Ref → Payload) (e : Ref) : Ref → Bool :=
  fun r => (P r).e_id == (P e).e_id

/-- `avl_delete`: remove and return the first element satisfying the
comparator, or return `none` leaving the tree unchanged. -/
def avlDelete (l : List Ref) (p : Ref → Bool) : Option Ref × List Ref :=
  match l with
  | [] => (none, [])
  | r :: t =>
    if p r then (some r, t)
    else
      let res := avlDelete t p
      (res.1, r :: res.2)

/-- `cache_delete_entry_internal`: delete `e` from the dn tree and the
id tree (both deletions are attempted; `rc` becomes `-1` if either
returns not-found); only when both succeeded, unlink from the LRU,
decrement `c_cursize` and set the state to `DELETED`. -/
def cache_delete_entry_internal (P : Ref → Payload) (c : Cache) (e : Ref) :
    Int × Cache :=
  let dnRes := avlDelete c.c_dntree (entry_dn_match P e)
  let idRes := avlDelete c.c_idtree (entry_id_match P e)
  let c1 : Cache := { c with c_dntree := dnRes.2, c_idtree := idRes.2 }
  if dnRes.1.isNone || idRes.1.isNone then
    (-1, c1)
  else
    let c2 : Cache :=
      { c1 with c_lru := c1.c_lru.erase e, c_cursize := c1.c_cursize - 1 }
    (0, setState c2 e CState.deleted)

/-- `cache_return_entry_rw` (public `release`): unlock, decrement the
refcount, then dispatch on the state: a `CREATING` entry is internally
deleted but its payload is not freed (ownership reverts to the
inserter); a `COMMITTED` entry is promoted to `READY`; a `DELETED`
entry whose refcount reached zero has its slot destroyed and — unless
this release aborted a creation — its payload freed. -/
def cache_return_entry_rw (P : Ref → Payload) (c : Cache) (e : Ref)
    (rw : Bool) : Cache :=
  match c.c_info e with
  | none => c
  | some _ =>
    let c1 := cache_entry_rdwr_unlock c e rw
    let c2 := modInfo c1 e (fun i => { i with lei_refcnt := i.lei_refcnt - 1 })
    let refcnt := refcntOf c2 e
    let step :=
      if stateOf c2 e = some CState.creating then
        ((cache_delete_entry_internal P c2 e).2, false)
      else (c2, true)
    let c3 := step.1
    let freeit := step.2
    if stateOf c3 e = some CState.committed then
      setState c3 e CState.ready
    else if stateOf c3 e = some CState.deleted then
      if 0 < refcnt then c3
      else
        let c4 := cache_entry_private_destroy c3 e
        if freeit then { c4 with c_freed := e :: c4.c_freed } else c4
    else c3

/-- One iteration of the first eviction loop: if the LRU tail exists
and is in use (`lei_refcnt != 0`), splice it to the LRU head; otherwise
do nothing. -/
def spliceStep (c : Cache) : Cache :=
  match c.c_lru.getLast? with
  | none => c
  | some ee =>
    if refcntOf c ee ≠ 0 then
      { c with c_lru := ee :: c.c_lru.erase ee }
    else c

/-- Phase A of eviction: walk from the LRU tail for at most `fuel`
(the source uses 10) iterations while the tail is in use, splicing each
in-use tail to the head. -/
def phaseAgo (c : Cache) : Nat → Cache
  | 0 => c
  | n + 1 =>
    match c.c_lru.getLast? with
    | none => c
    | some ee =>
      if refcntOf c ee ≠ 0 then phaseAgo (spliceStep c) n
      else c

/-- One iteration body of the second eviction loop: internally delete
the LRU tail, destroy its slot, free its payload. -/
def evictTail (P : Ref → Payload) (c : Cache) (e : Ref) : Cache :=
  let c1 := (cache_delete_entry_internal P c e).2
  let c2 := cache_entry_private_destroy c1 e
  { c2 with c_freed := e :: c2.c_freed }

/-- Phase B of eviction: while the LRU tail exists, is unused and the
cache is over `c_maxsize`, evict the tail.  `fuel` bounds the loop;
callers pass the LRU length, which dominates the number of iterations
the C loop performs in a well-formed state. -/
def phaseBgo (P : Ref → Payload) : Nat → Cache → Cache
  | 0, c => c
  | n + 1, c =>
    match c.c_lru.getLast? with
    | none => c
    | some e =>
      if refcntOf c e = 0 ∧ c.c_maxsize < c.c_cursize then
        phaseBgo P n (evictTail P c e)
      else c

/-- The eviction block at the end of `cache_add_entry_rw` /
`cache_update_entry`, run when `c_cursize > c_maxsize`. -/
def cache_evict (P : Ref → Payload) (c : Cache) : Cache :=
  let cA := phaseAgo c 10
  phaseBgo P cA.c_lru.length cA

/-- `cache_add_entry_rw` (public `insert`): attach a private slot,
insert into the dn tree (failure: return 1, duplicate name), then into
the id tree (failure: undo the dn insert and return `-1`), acquire the
entry lock in mode `rw`, set state `CREATING`, refcount 1, push onto
the LRU head, bump `c_cursize` and evict if over `c_maxsize`. -/
def cache_add_entry_rw (P : Ref → Payload) (c : Cache) (e : Ref)
    (rw : Bool) : Int × Cache :=
  if (c.c_info e).isSome then
    (-1, c)
  else
    let c1 := putInfo c e
      { lei_state := CState.undefined, lei_refcnt := 0,
        lei_readers := 0, lei_writer := false }
    if c1.c_dntree.any (entry_dn_match P e) then
      (1, delInfo c1 e)
    else
      let c2 : Cache := { c1 with c_dntree := e :: c1.c_dntree }
      if c2.c_idtree.any (entry_id_match P e) then
        let dnRes := avlDelete c2.c_dntree (entry_dn_match P e)
        (-1, delInfo { c2 with c_dntree := dnRes.2 } e)
      else
        let c3 : Cache := { c2 with c_idtree := e :: c2.c_idtree }
        let c4 := cache_entry_rdwr_lock c3 e rw
        let c5 := modInfo c4 e (fun i =>
          { i with lei_state := CState.creating, lei_refcnt := 1 })
        let c6 : Cache :=
          { c5 with c_lru := e :: c5.c_lru, c_cursize := c5.c_cursize + 1 }
        if c6.c_maxsize < c6.c_cursize then (0, cache_evict P c6)
        else (0, c6)

/-- Result of one pass of the body of `cache_find_entry_id`. -/
inductive IdFind where
  | found (r : Ref)
  | absent
  | retry
deriving DecidableEq

/-- One pass of `cache_find_entry_id` (public `lookup_id`): search the
id tree; absent → `absent`; present but not `READY`, or try-lock busy →
release the mutex, yield and `retry` (the cache is unchanged); otherwise
take the lock, splice to the LRU head, bump the refcount and return the
borrowed entry. -/
def cache_find_entry_id_step (P : Ref → Payload) (c : Cache) (i : EntryID)
    (rw : Bool) : IdFind × Cache :=
  match c.c_idtree.find? (fun r => (P r).e_id == i) with
  | none => (IdFind.absent, c)
  | some ep =>
    if stateOf c ep ≠ some CState.ready then (IdFind.retry, c)
    else if trylockBusy c ep rw then (IdFind.retry, c)
    else
      let c1 := cache_entry_rdwr_lock c ep rw
      let c2 : Cache := { c1 with c_lru := ep :: c1.c_lru.erase ep }
      (IdFind.found ep,
        modInfo c2 ep (fun i => { i with lei_refcnt := i.lei_refcnt + 1 }))

/-- `cache_find_entry_id` with an explicit retry budget: each `retry`
outcome restarts the whole search from scratch, exactly as the
`goto try_again` in the source. -/
def cache_find_entry_id (P : Ref → Payload) :
    Nat → Cache → EntryID → Bool → IdFind × Cache
  | 0, c, _, _ => (IdFind.retry, c)
  | n + 1, c, i, rw =>
    match cache_find_entry_id_step P c i rw with
    | (IdFind.retry, c1) => cache_find_entry_id P n c1 i rw
    | r => r

/-- Result of one pass of the body of `cache_find_entry_ndn2id`. -/
inductive NameFind where
  | found (i : EntryID)
  | noid
  | retry
deriving DecidableEq

/-- One pass of `cache_find_entry_ndn2id` (public `lookup_name`):
search the dn tree; absent → `NOID`; present but not `READY` → yield
and retry; otherwise splice to the LRU head and return the id (no lock
taken, no refcount change). -/
def cache_find_entry_ndn2id_step (P : Ref → Payload) (c : Cache)
    (n : String) : NameFind × Cache :=
  match c.c_dntree.find? (fun r => (P r).e_nname == n) with
  | none => (NameFind.noid, c)
  | some ep =>
    if stateOf c ep ≠ some CState.ready then (NameFind.retry, c)
    else
      (NameFind.found (P ep).e_id,
        { c with c_lru := ep :: c.c_lru.erase ep })

/-- `cache_delete_entry` (public `delete`): under the cache mutex,
internally delete a held entry. -/
def cache_delete_entry (P : Ref → Payload) (c : Cache) (e : Ref) :
    Int × Cache :=
  cache_delete_entry_internal P c e

/-- The loop body of `cache_release_all`, with fuel. -/
def drainGo (P : Ref → Payload) : Nat → Cache → Cache
  | 0, c => c
  | n + 1, c =>
    match c.c_lru.getLast? with
    | none => c
    | some e =>
      if refcntOf c e = 0 then drainGo P n (evictTail P c e)
      else c

/-- `cache_release_all` (public `drain`): while the LRU tail exists and
is unused, evict it; pinned entries are left behind. -/
def cache_release_all (P : Ref → Payload) (c : Cache) : Cache :=
  drainGo P c.c_lru.length c

/-- The public operations of the cache controller. -/
inductive Op where
  | insert (e : Ref) (rw : Bool)
  | lookupId (i : EntryID) (rw : Bool)
  | lookupName (n : String)
  | commit (e : Ref)
  | release (e : Ref) (rw : Bool)
  | delete (e : Ref)
  | drain

/-- The caller-contract precondition of each public operation:
`insert` takes a record with no attached slot; `commit` is called by
the inserter on a `CREATING` entry; `release` returns a held borrow
(slot attached, positive refcount, lock held in the released mode);
`delete` is called on a resident entry the caller obtained from a
lookup (hence with positive refcount). -/
@[reducible] def Legal (c : Cache) : Op → Prop
  | Op.insert e _ => c.c_info e = none
  | Op.lookupId _ _ => True
  | Op.lookupName _ => True
  | Op.commit e => stateOf c e = some CState.creating
  | Op.release e rw =>
      (c.c_info e).isSome = true ∧ 0 < refcntOf c e ∧ lockHeld c e rw = true
  | Op.delete e => e ∈ c.c_idtree ∧ 0 < refcntOf c e
  | Op.drain => True

/-- The state transformer of each public operation. A lookup that would
retry leaves the cache unchanged (each failed pass releases the mutex
without mutating anything), so taking the state after one pass is
faithful for any number of passes. -/
def runOp (P : Ref → Payload) (c : Cache) : Op → Cache
  | Op.insert e rw => (cache_add_entry_rw P c e rw).2
  | Op.lookupId i rw => (cache_find_entry_id_step P c i rw).2
  | Op.lookupName n => (cache_find_entry_ndn2id_step P c n).2
  | Op.commit e => cache_entry_commit c e
  | Op.release e rw => cache_return_entry_rw P c e rw
  | Op.delete e => (cache_delete_entry P c e).2
  | Op.drain => cache_release_all P c

/-- Cache states reachable from an opened cache by legal sequences of
public operations. -/
inductive Reachable (P : Ref → Payload) : Cache → Prop where
  | init (maxsize : Int) (h : 1 ≤ maxsize) : Reachable P (cacheInit maxsize)
  | step {c : Cache} {op : Op} : Reachable P c → Legal c op →
      Reachable P (runOp P c op)

/-- The number of resident entries currently pinned (`lei_refcnt > 0`). -/
def pinnedCount (c : Cache) : Nat :=
  (c.c_lru.filter (fun r => decide (0 < refcntOf c r))).length

/-- Well-formedness of a cache state: the cross-index membership
invariant, size accounting, uniqueness of references, names and ids
among residents, every resident has an attached slot, and every
`CREATING` entry is resident. -/
structure WF (P : Ref → Payload) (c : Cache) : Prop where
  dn_sub_id : ∀ r ∈ c.c_dntree, r ∈ c.c_idtree
  id_sub_lru : ∀ r ∈ c.c_idtree, r ∈ c.c_lru
  lru_sub_dn : ∀ r ∈ c.c_lru, r ∈ c.c_dntree
  size_eq : c.c_cursize = c.c_lru.length
  lru_nodup : c.c_lru.Nodup
  names_nodup : (c.c_dntree.map (fun r => (P r).e_nname)).Nodup
  ids_nodup : (c.c_idtree.map (fun r => (P r).e_id)).Nodup
  mem_info : ∀ r ∈ c.c_lru, (c.c_info r).isSome = true
  creating_resident : ∀ r : Ref, stateOf c r = some CState.creating →
    r ∈ c.c_lru
  deleted_detached : ∀ r : Ref, stateOf c r = some CState.deleted →
    r ∉ c.c_lru

/-! ### Characterisation of `cache_delete_entry_internal` -/

/-- The state produced by a successful internal delete of `e`:
removed from both trees and the LRU, `c_cursize` decremented, state set
to `DELETED`. -/
def detachedCache (c : Cache) (e : Ref) : Cache :=
  { c_dntree := c.c_dntree.erase e, c_idtree := c.c_idtree.erase e,
    c_lru := c.c_lru.erase e, c_cursize := c.c_cursize - 1,
    c_maxsize := c.c_maxsize,
    c_info := setInfoFn c.c_info e
      ((c.c_info e).map (fun i => { i with lei_state := CState.deleted })),
    c_freed := c.c_freed }

/-! ### Characterisation of `cache_add_entry_rw` -/

/-- The state after the mutating part of a successful insert, before
the eviction check: `e` is in both trees and at the LRU head, its slot
is `CREATING` with refcount 1 and the entry lock held in mode `rw`. -/
def insertedCache (c : Cache) (e : Ref) (rw : Bool) : Cache :=
  { c_dntree := e :: c.c_dntree, c_idtree := e :: c.c_idtree,
    c_lru := e :: c.c_lru, c_cursize := c.c_cursize + 1,
    c_maxsize := c.c_maxsize,
    c_info := setInfoFn c.c_info e (some
      { lei_state := CState.creating, lei_refcnt := 1,
        lei_readers := if rw then 0 else 1, lei_writer := rw }),
    c_freed := c.c_freed }

/-! ### The eviction loops -/

/-- The state after one Phase-B eviction of the tail `e`: internally
deleted, slot destroyed, payload freed. -/
def evictedCache (c : Cache) (e : Ref) : Cache :=
  { c_dntree := c.c_dntree.erase e, c_idtree := c.c_idtree.erase e,
    c_lru := c.c_lru.erase e, c_cursize := c.c_cursize - 1,
    c_maxsize := c.c_maxsize,
    c_info := setInfoFn c.c_info e none,
    c_freed := e :: c.c_freed }

/-! ### The release path -/

/-- The combined slot update a release performs under the mutex:
unlock in mode `rw`, then decrement the refcount. -/
def relFun (rw : Bool) (i : EntryInfo) : EntryInfo :=
  let j := if rw then { i with lei_writer := false }
           else { i with lei_readers := i.lei_readers - 1 }
  { j with lei_refcnt := j.lei_refcnt - 1 }

/-! ### Concrete environments used by witnesses and counterexamples -/

/-- Distinct entries 1,2,3 with distinct ids and names. -/
def Pabc : Ref → Payload := fun r =>
  if r = 1 then { e_id := 1, e_nname := "a" }
  else if r = 2 then { e_id := 2, e_nname := "b" }
  else if r = 3 then { e_id := 3, e_nname := "c" }
  else { e_id := r, e_nname := "z" }

/-- Entry 2 collides with entry 1 on id, entry 3 collides on name. -/
def Pdup : Ref → Payload := fun r =>
  if r = 1 then { e_id := 1, e_nname := "a" }
  else if r = 2 then { e_id := 1, e_nname := "a2" }
  else { e_id := 3, e_nname := "a" }

/-- Entry 1 resident and `READY` in a cache of bound 4. -/
def cDupBase : Cache :=
  cache_return_entry_rw Pdup
    (cache_entry_commit (cache_add_entry_rw Pdup (cacheInit 4) 1 true).2 1)
    1 true

/-- Two pinned `CREATING` entries in a cache of bound 1. -/
def cMax1Two : Cache :=
  (cache_add_entry_rw Pabc
    ((cache_add_entry_rw Pabc (cacheInit 1) 1 true).2) 2 true).2

/-- The trace insert 1, insert 2, commit both, release both, on a cache
of bound 1. -/
def c9trace : Cache :=
  runOp Pabc (runOp Pabc (runOp Pabc (runOp Pabc (runOp Pabc (runOp Pabc
    (cacheInit 1) (Op.insert 1 true)) (Op.insert 2 true)) (Op.commit 1))
    (Op.commit 2)) (Op.release 1 true)) (Op.release 2 true)

/-- A fresh `CREATING` entry 2 held in write mode in a cache of bound 4. -/
def cAborted : Cache := runOp Pabc (cacheInit 4) (Op.insert 2 true)

/-- Entry 1 resident, `READY`, and pinned by a reader borrow. -/
def cPinned : Cache :=
  runOp Pabc (runOp Pabc (runOp Pabc (runOp Pabc
    (cacheInit 4) (Op.insert 1 true)) (Op.commit 1))
    (Op.release 1 true)) (Op.lookupId 1 false)

/-! ### Basic facts about the `e_private` map and the slot accessors -/

@[simp] theorem setInfoFn_same (f : Ref → Option EntryInfo) (e : Ref)
    (v : Option EntryInfo) : setInfoFn f e v e = v := by
  simp [setInfoFn]

theorem setInfoFn_ne (f : Ref → Option EntryInfo) (e : Ref)
    (v : Option EntryInfo) {r : Ref} (h : r ≠ e) : setInfoFn f e v r = f r := by
  simp [setInfoFn, h]

theorem setInfoFn_setInfoFn (f : Ref → Option EntryInfo) (e : Ref)
    (v w : Option EntryInfo) :
    setInfoFn (setInfoFn f e v) e w = setInfoFn f e w := by
  funext r
  by_cases h : r = e <;> simp [setInfoFn, h]

theorem setInfoFn_self_eq (f : Ref → Option EntryInfo) (e : Ref)
    (h : f e = none) : setInfoFn f e none = f := by
  funext r
  by_cases hr : r = e
  · subst hr; simp [setInfoFn, h]
  · simp [setInfoFn, hr]

@[simp] theorem modInfo_dntree (c : Cache) (e : Ref) (f : EntryInfo → EntryInfo) :
    (modInfo c e f).c_dntree = c.c_dntree := rfl
@[simp] theorem modInfo_idtree (c : Cache) (e : Ref) (f : EntryInfo → EntryInfo) :
    (modInfo c e f).c_idtree = c.c_idtree := rfl
@[simp] theorem modInfo_lru (c : Cache) (e : Ref) (f : EntryInfo → EntryInfo) :
    (modInfo c e f).c_lru = c.c_lru := rfl
@[simp] theorem modInfo_cursize (c : Cache) (e : Ref) (f : EntryInfo → EntryInfo) :
    (modInfo c e f).c_cursize = c.c_cursize := rfl
@[simp] theorem modInfo_maxsize (c : Cache) (e : Ref) (f : EntryInfo → EntryInfo) :
    (modInfo c e f).c_maxsize = c.c_maxsize := rfl
@[simp] theorem modInfo_freed (c : Cache) (e : Ref) (f : EntryInfo → EntryInfo) :
    (modInfo c e f).c_freed = c.c_freed := rfl

theorem modInfo_info (c : Cache) (e : Ref) (f : EntryInfo → EntryInfo) (r : Ref) :
    (modInfo c e f).c_info r =
      if r = e then (c.c_info e).map f else c.c_info r := by
  by_cases h : r = e <;> simp [modInfo, setInfoFn, h]

theorem stateOf_modInfo (c : Cache) (e : Ref) (f : EntryInfo → EntryInfo) (r : Ref) :
    stateOf (modInfo c e f) r =
      if r = e then (c.c_info e).map (fun i => (f i).lei_state)
      else stateOf c r := by
  by_cases h : r = e
  · subst h
    simp only [stateOf, modInfo_info, if_pos rfl]
    cases c.c_info r <;> simp
  · simp [stateOf, modInfo_info, h]

theorem stateOf_modInfo_of_state_fix (c : Cache) (e : Ref)
    (f : EntryInfo → EntryInfo) (hf : ∀ i, (f i).lei_state = i.lei_state)
    (r : Ref) : stateOf (modInfo c e f) r = stateOf c r := by
  rw [stateOf_modInfo]
  by_cases h : r = e
  · subst h; simp [stateOf, hf]
  · simp [h]

theorem refcntOf_modInfo_of_refcnt_fix (c : Cache) (e : Ref)
    (f : EntryInfo → EntryInfo) (hf : ∀ i, (f i).lei_refcnt = i.lei_refcnt)
    (r : Ref) : refcntOf (modInfo c e f) r = refcntOf c r := by
  by_cases h : r = e
  · subst h
    simp only [refcntOf, modInfo_info, if_pos rfl]
    cases c.c_info r <;> simp [hf]
  · simp [refcntOf, modInfo_info, h]

theorem isSome_modInfo (c : Cache) (e : Ref) (f : EntryInfo → EntryInfo)
    (r : Ref) : ((modInfo c e f).c_info r).isSome = (c.c_info r).isSome := by
  by_cases h : r = e
  · subst h
    simp only [modInfo_info, if_pos rfl]
    cases c.c_info r <;> simp
  · simp [modInfo_info, h]

/-! ### `avl_delete` as `find?` plus `eraseP` -/

theorem avlDelete_eq (l : List Ref) (p : Ref → Bool) :
    avlDelete l p = (l.find? p, l.eraseP p) := by
  induction l with
  | nil => rfl
  | cons a t ih =>
    by_cases h : p a
    · simp [avlDelete, h, List.find?_cons_of_pos, List.eraseP_cons_of_pos]
    · simp only [Bool.not_eq_true] at h
      simp [avlDelete, h, ih, List.find?_cons_of_neg, List.eraseP_cons_of_neg]

/-- In a tree whose keys are pairwise distinct, the comparator lookup
for `e`'s key finds `e` itself. -/
theorem find_key_self {α : Type} [BEq α] [LawfulBEq α] (k : Ref → α) :
    ∀ (l : List Ref) (e : Ref), (l.map k).Nodup → e ∈ l →
      l.find? (fun r => k r == k e) = some e := by
  intro l
  induction l with
  | nil => intro e _ he; cases he
  | cons a t ih =>
    intro e hnd he
    simp only [List.map_cons, List.nodup_cons] at hnd
    by_cases h : (k a == k e) = true
    · have hk : k a = k e := by simpa using h
      have hae : a = e := by
        by_contra hne
        have het : e ∈ t := by
          rcases List.mem_cons.mp he with h1 | h1
          · exact absurd h1.symm hne
          · exact h1
        exact hnd.1 (hk ▸ List.mem_map_of_mem k het)
      subst hae
      simp [List.find?_cons_of_pos, h]
    · have hne : a ≠ e := by
        intro hcontra; subst hcontra; simp at h
      have het : e ∈ t := by
        rcases List.mem_cons.mp he with h1 | h1
        · exact absurd h1.symm hne
        · exact h1
      rw [List.find?_cons_of_neg _ (by simpa using h)]
      exact ih e hnd.2 het

/-- In a tree whose keys are pairwise distinct, the comparator deletion
for `e`'s key removes exactly `e`. -/
theorem eraseP_key_self {α : Type} [BEq α] [LawfulBEq α] (k : Ref → α) :
    ∀ (l : List Ref) (e : Ref), (l.map k).Nodup → e ∈ l →
      l.eraseP (fun r => k r == k e) = l.erase e := by
  intro l
  induction l with
  | nil => intro e _ he; cases he
  | cons a t ih =>
    intro e hnd he
    simp only [List.map_cons, List.nodup_cons] at hnd
    by_cases h : (k a == k e) = true
    · have hk : k a = k e := by simpa using h
      have hae : a = e := by
        by_contra hne
        have het : e ∈ t := by
          rcases List.mem_cons.mp he with h1 | h1
          · exact absurd h1.symm hne
          · exact h1
        exact hnd.1 (hk ▸ List.mem_map_of_mem k het)
      subst hae
      simp [List.eraseP_cons_of_pos, h, List.erase_cons_head]
    · have hne : a ≠ e := by
        intro hcontra; subst hcontra; simp at h
      have het : e ∈ t := by
        rcases List.mem_cons.mp he with h1 | h1
        · exact absurd h1.symm hne
        · exact h1
      rw [List.eraseP_cons_of_neg (by simpa using h),
        List.erase_cons_tail (by simpa using hne), ih e hnd.2 het]

theorem find_key_none {α : Type} [BEq α] [LawfulBEq α] (k : Ref → α)
    (l : List Ref) (v : α) (h : ∀ r ∈ l, k r ≠ v) :
    l.find? (fun r => k r == v) = none := by
  induction l with
  | nil => rfl
  | cons a t ih =>
    rw [List.find?_cons_of_neg _ (by simpa using h a (List.mem_cons_self a t))]
    exact ih (fun r hr => h r (List.mem_cons_of_mem a hr))

theorem eraseP_key_none {α : Type} [BEq α] [LawfulBEq α] (k : Ref → α)
    (l : List Ref) (v : α) (h : ∀ r ∈ l, k r ≠ v) :
    l.eraseP (fun r => k r == v) = l := by
  induction l with
  | nil => rfl
  | cons a t ih =>
    rw [List.eraseP_cons_of_neg (by simpa using h a (List.mem_cons_self a t)),
      ih (fun r hr => h r (List.mem_cons_of_mem a hr))]

theorem mem_of_getLast? {l : List Ref} {e : Ref} (h : l.getLast? = some e) :
    e ∈ l := by
  induction l with
  | nil => cases h
  | cons a t ih =>
    cases t with
    | nil =>
      simp [List.getLast?] at h
      simp [h]
    | cons b t2 =>
      rw [List.getLast?_cons_cons] at h
      exact List.mem_cons_of_mem a (ih h)

theorem dn_nodup (hWF : WF P c) : c.c_dntree.Nodup :=
  List.Nodup.of_map _ hWF.names_nodup

theorem id_nodup (hWF : WF P c) : c.c_idtree.Nodup :=
  List.Nodup.of_map _ hWF.ids_nodup

theorem internal_delete_of_resident (P : Ref → Payload) (c : Cache) (e : Ref)
    (hWF : WF P c) (he : e ∈ c.c_dntree) :
    cache_delete_entry_internal P c e = (0, detachedCache c e) := by
  have heid : e ∈ c.c_idtree := hWF.dn_sub_id e he
  have hdf : c.c_dntree.find? (entry_dn_match P e) = some e :=
    find_key_self (fun r => (P r).e_nname) c.c_dntree e hWF.names_nodup he
  have hde : c.c_dntree.eraseP (entry_dn_match P e) = c.c_dntree.erase e :=
    eraseP_key_self (fun r => (P r).e_nname) c.c_dntree e hWF.names_nodup he
  have hif : c.c_idtree.find? (entry_id_match P e) = some e :=
    find_key_self (fun r => (P r).e_id) c.c_idtree e hWF.ids_nodup heid
  have hie : c.c_idtree.eraseP (entry_id_match P e) = c.c_idtree.erase e :=
    eraseP_key_self (fun r => (P r).e_id) c.c_idtree e hWF.ids_nodup heid
  simp [cache_delete_entry_internal, avlDelete_eq, hdf, hde, hif, hie,
    setState, modInfo, detachedCache]

theorem stateOf_detached (c : Cache) (e : Ref) (r : Ref) :
    stateOf (detachedCache c e) r =
      if r = e then (c.c_info e).map (fun _ => CState.deleted)
      else stateOf c r := by
  by_cases h : r = e
  · subst h
    simp only [stateOf, detachedCache, setInfoFn_same, if_pos rfl]
    cases c.c_info r <;> simp
  · simp [stateOf, detachedCache, setInfoFn_ne _ _ _ h, h]

theorem WF_detached (P : Ref → Payload) (c : Cache) (e : Ref)
    (hWF : WF P c) (he : e ∈ c.c_lru) : WF P (detachedCache c e) := by
  have hdn := dn_nodup hWF
  have hid := id_nodup hWF
  have hlru := hWF.lru_nodup
  refine ⟨?_, ?_, ?_, ?_, ?_, ?_, ?_, ?_, ?_, ?_⟩
  · intro r hr
    rcases (hdn.mem_erase_iff).mp hr with ⟨hne, hmem⟩
    exact (hid.mem_erase_iff).mpr ⟨hne, hWF.dn_sub_id r hmem⟩
  · intro r hr
    rcases (hid.mem_erase_iff).mp hr with ⟨hne, hmem⟩
    exact (hlru.mem_erase_iff).mpr ⟨hne, hWF.id_sub_lru r hmem⟩
  · intro r hr
    rcases (hlru.mem_erase_iff).mp hr with ⟨hne, hmem⟩
    exact (hdn.mem_erase_iff).mpr ⟨hne, hWF.lru_sub_dn r hmem⟩
  · show c.c_cursize - 1 = ((c.c_lru.erase e).length : Int)
    rw [List.length_erase_of_mem he, hWF.size_eq]
    have hpos : 0 < c.c_lru.length := List.length_pos.mpr (by
      intro hnil; rw [hnil] at he; cases he)
    omega
  · exact hlru.erase e
  · exact List.Nodup.sublist ((List.erase_sublist e c.c_dntree).map _)
      hWF.names_nodup
  · exact List.Nodup.sublist ((List.erase_sublist e c.c_idtree).map _)
      hWF.ids_nodup
  · intro r hr
    rcases (hlru.mem_erase_iff).mp hr with ⟨hne, hmem⟩
    show (setInfoFn c.c_info e _ r).isSome = true
    rw [setInfoFn_ne _ _ _ hne]
    exact hWF.mem_info r hmem
  · intro r hr
    rw [stateOf_detached] at hr
    by_cases h : r = e
    · rw [if_pos h] at hr
      exfalso
      cases hc : c.c_info e <;> rw [hc] at hr <;> simp at hr
    · rw [if_neg h] at hr
      exact (hlru.mem_erase_iff).mpr ⟨h, hWF.creating_resident r hr⟩
  · intro r hr
    rw [stateOf_detached] at hr
    by_cases h : r = e
    · subst h
      intro hmem
      exact ((hlru.mem_erase_iff).mp hmem).1 rfl
    · rw [if_neg h] at hr
      intro hmem
      exact hWF.deleted_detached r hr (List.mem_of_mem_erase hmem)

/-- A partially failing internal delete: the entry's name is resident
but its id is not.  The dn tree loses its matching element, the id
tree, LRU list, `c_cursize` and every slot are untouched, and the
operation reports failure. -/
theorem internal_delete_dn_only (P : Ref → Payload) (c : Cache) (e f0 : Ref)
    (hdn : c.c_dntree.find? (entry_dn_match P e) = some f0)
    (hid : ∀ r ∈ c.c_idtree, (P r).e_id ≠ (P e).e_id) :
    cache_delete_entry_internal P c e =
      (-1, { c with c_dntree := c.c_dntree.eraseP (entry_dn_match P e) }) := by
  have hif : c.c_idtree.find? (entry_id_match P e) = none :=
    find_key_none (fun r => (P r).e_id) c.c_idtree _ hid
  have hie : c.c_idtree.eraseP (entry_id_match P e) = c.c_idtree :=
    eraseP_key_none (fun r => (P r).e_id) c.c_idtree _ hid
  simp [cache_delete_entry_internal, avlDelete_eq, hdn, hif, hie]

/-- The symmetric partial failure: the id is resident, the name is not.
The id tree loses its matching element, everything else is untouched. -/
theorem internal_delete_id_only (P : Ref → Payload) (c : Cache) (e f0 : Ref)
    (hdn : ∀ r ∈ c.c_dntree, (P r).e_nname ≠ (P e).e_nname)
    (hid : c.c_idtree.find? (entry_id_match P e) = some f0) :
    cache_delete_entry_internal P c e =
      (-1, { c with c_idtree := c.c_idtree.eraseP (entry_id_match P e) }) := by
  have hdf : c.c_dntree.find? (entry_dn_match P e) = none :=
    find_key_none (fun r => (P r).e_nname) c.c_dntree _ hdn
  have hde : c.c_dntree.eraseP (entry_dn_match P e) = c.c_dntree :=
    eraseP_key_none (fun r => (P r).e_nname) c.c_dntree _ hdn
  simp [cache_delete_entry_internal, avlDelete_eq, hdf, hde, hid]

/-! ### WF is stable under slot modifications that keep the state -/

theorem WF_modInfo (P : Ref → Payload) (c : Cache) (e : Ref)
    (f : EntryInfo → EntryInfo) (hWF : WF P c)
    (hf : ∀ i, (f i).lei_state = i.lei_state) : WF P (modInfo c e f) := by
  refine ⟨hWF.dn_sub_id, hWF.id_sub_lru, hWF.lru_sub_dn, hWF.size_eq,
    hWF.lru_nodup, hWF.names_nodup, hWF.ids_nodup, ?_, ?_, ?_⟩
  · intro r hr
    rw [isSome_modInfo]
    exact hWF.mem_info r hr
  · intro r hr
    rw [stateOf_modInfo_of_state_fix c e f hf] at hr
    exact hWF.creating_resident r hr
  · intro r hr
    rw [stateOf_modInfo_of_state_fix c e f hf] at hr
    exact hWF.deleted_detached r hr

theorem delInfo_putInfo (c : Cache) (e : Ref) (v : EntryInfo)
    (h : c.c_info e = none) : delInfo (putInfo c e v) e = c := by
  simp only [delInfo, putInfo, setInfoFn_setInfoFn]
  rw [setInfoFn_self_eq _ _ h]

/-- A name-duplicate insert returns 1 and leaves the cache unchanged. -/
theorem add_dup_name (P : Ref → Payload) (c : Cache) (e : Ref) (rw : Bool)
    (h0 : c.c_info e = none)
    (hdn : c.c_dntree.any (entry_dn_match P e) = true) :
    cache_add_entry_rw P c e rw = (1, c) := by
  simp [cache_add_entry_rw, h0, putInfo, hdn, delInfo_putInfo, delInfo,
    setInfoFn_setInfoFn, setInfoFn_self_eq _ _ h0]

/-- An id-duplicate insert (with a fresh name) returns `-1` — the code
undoes the dn-tree insert — and leaves the cache unchanged. -/
theorem add_dup_id (P : Ref → Payload) (c : Cache) (e : Ref) (rw : Bool)
    (h0 : c.c_info e = none)
    (hdn : c.c_dntree.any (entry_dn_match P e) = false)
    (hid : c.c_idtree.any (entry_id_match P e) = true) :
    cache_add_entry_rw P c e rw = (-1, c) := by
  have hself : entry_dn_match P e e = true := by
    simp [entry_dn_match]
  simp [cache_add_entry_rw, h0, putInfo, hdn, hid, avlDelete, hself,
    delInfo, setInfoFn_setInfoFn, setInfoFn_self_eq _ _ h0]

/-- A collision-free insert returns 0 and produces `insertedCache`,
running eviction when the new size exceeds `c_maxsize`. -/
theorem add_success (P : Ref → Payload) (c : Cache) (e : Ref) (rw : Bool)
    (h0 : c.c_info e = none)
    (hdn : c.c_dntree.any (entry_dn_match P e) = false)
    (hid : c.c_idtree.any (entry_id_match P e) = false) :
    cache_add_entry_rw P c e rw =
      (0, if c.c_maxsize < c.c_cursize + 1
            then cache_evict P (insertedCache c e rw)
            else insertedCache c e rw) := by
  cases rw <;>
    (simp [cache_add_entry_rw, h0, putInfo, hdn, hid, insertedCache,
      cache_entry_rdwr_lock, modInfo, setInfoFn_setInfoFn]
     split <;> rfl)

theorem WF_inserted (P : Ref → Payload) (c : Cache) (e : Ref) (rw : Bool)
    (hWF : WF P c) (h0 : c.c_info e = none)
    (hdn : ∀ r ∈ c.c_dntree, (P r).e_nname ≠ (P e).e_nname)
    (hid : ∀ r ∈ c.c_idtree, (P r).e_id ≠ (P e).e_id) :
    WF P (insertedCache c e rw) := by
  have hlru : e ∉ c.c_lru := by
    intro hmem
    have hs := hWF.mem_info e hmem
    rw [h0] at hs
    simp at hs
  refine ⟨?_, ?_, ?_, ?_, ?_, ?_, ?_, ?_, ?_, ?_⟩
  · intro r hr
    rcases List.mem_cons.mp hr with h | h
    · exact h ▸ List.mem_cons_self _ _
    · exact List.mem_cons_of_mem _ (hWF.dn_sub_id r h)
  · intro r hr
    rcases List.mem_cons.mp hr with h | h
    · exact h ▸ List.mem_cons_self _ _
    · exact List.mem_cons_of_mem _ (hWF.id_sub_lru r h)
  · intro r hr
    rcases List.mem_cons.mp hr with h | h
    · exact h ▸ List.mem_cons_self _ _
    · exact List.mem_cons_of_mem _ (hWF.lru_sub_dn r h)
  · show c.c_cursize + 1 = ((e :: c.c_lru).length : Int)
    rw [hWF.size_eq]
    push_cast [List.length_cons]
    ring
  · exact List.nodup_cons.mpr ⟨hlru, hWF.lru_nodup⟩
  · refine List.nodup_cons.mpr ⟨?_, hWF.names_nodup⟩
    intro hmem
    rcases List.mem_map.mp hmem with ⟨r, hr, hkey⟩
    exact hdn r hr hkey
  · refine List.nodup_cons.mpr ⟨?_, hWF.ids_nodup⟩
    intro hmem
    rcases List.mem_map.mp hmem with ⟨r, hr, hkey⟩
    exact hid r hr hkey
  · intro r hr
    by_cases h : r = e
    · subst h
      simp [insertedCache]
    · show (setInfoFn c.c_info e _ r).isSome = true
      rw [setInfoFn_ne _ _ _ h]
      rcases List.mem_cons.mp hr with h1 | h1
      · exact absurd h1 h
      · exact hWF.mem_info r h1
  · intro r hr
    by_cases h : r = e
    · exact h ▸ List.mem_cons_self _ _
    · apply List.mem_cons_of_mem
      apply hWF.creating_resident r
      show stateOf c r = some CState.creating
      have : stateOf (insertedCache c e rw) r = stateOf c r := by
        simp [stateOf, insertedCache, setInfoFn_ne _ _ _ h]
      rw [← this]
      exact hr
  · intro r hr
    by_cases h : r = e
    · subst h
      simp [stateOf, insertedCache] at hr
    · have : stateOf (insertedCache c e rw) r = stateOf c r := by
        simp [stateOf, insertedCache, setInfoFn_ne _ _ _ h]
      rw [this] at hr
      intro hmem
      rcases List.mem_cons.mp hmem with h1 | h1
      · exact h h1
      · exact hWF.deleted_detached r hr h1

theorem evictTail_of_resident (P : Ref → Payload) (c : Cache) (e : Ref)
    (hWF : WF P c) (he : e ∈ c.c_lru) :
    evictTail P c e = evictedCache c e := by
  have hdn : e ∈ c.c_dntree := hWF.lru_sub_dn e he
  simp only [evictTail, internal_delete_of_resident P c e hWF hdn]
  simp [cache_entry_private_destroy, delInfo, detachedCache, evictedCache,
    setInfoFn_setInfoFn]

theorem stateOf_evicted (c : Cache) (e : Ref) (r : Ref) :
    stateOf (evictedCache c e) r = if r = e then none else stateOf c r := by
  by_cases h : r = e
  · subst h; simp [stateOf, evictedCache]
  · simp [stateOf, evictedCache, setInfoFn_ne _ _ _ h, h]

theorem WF_evicted (P : Ref → Payload) (c : Cache) (e : Ref)
    (hWF : WF P c) (he : e ∈ c.c_lru) : WF P (evictedCache c e) := by
  have hdn := dn_nodup hWF
  have hid := id_nodup hWF
  have hlru := hWF.lru_nodup
  refine ⟨?_, ?_, ?_, ?_, ?_, ?_, ?_, ?_, ?_, ?_⟩
  · intro r hr
    rcases (hdn.mem_erase_iff).mp hr with ⟨hne, hmem⟩
    exact (hid.mem_erase_iff).mpr ⟨hne, hWF.dn_sub_id r hmem⟩
  · intro r hr
    rcases (hid.mem_erase_iff).mp hr with ⟨hne, hmem⟩
    exact (hlru.mem_erase_iff).mpr ⟨hne, hWF.id_sub_lru r hmem⟩
  · intro r hr
    rcases (hlru.mem_erase_iff).mp hr with ⟨hne, hmem⟩
    exact (hdn.mem_erase_iff).mpr ⟨hne, hWF.lru_sub_dn r hmem⟩
  · show c.c_cursize - 1 = ((c.c_lru.erase e).length : Int)
    rw [List.length_erase_of_mem he, hWF.size_eq]
    have hpos : 0 < c.c_lru.length := List.length_pos.mpr (by
      intro hnil; rw [hnil] at he; cases he)
    omega
  · exact hlru.erase e
  · exact List.Nodup.sublist ((List.erase_sublist e c.c_dntree).map _)
      hWF.names_nodup
  · exact List.Nodup.sublist ((List.erase_sublist e c.c_idtree).map _)
      hWF.ids_nodup
  · intro r hr
    rcases (hlru.mem_erase_iff).mp hr with ⟨hne, hmem⟩
    show (setInfoFn c.c_info e none r).isSome = true
    rw [setInfoFn_ne _ _ _ hne]
    exact hWF.mem_info r hmem
  · intro r hr
    rw [stateOf_evicted] at hr
    by_cases h : r = e
    · rw [if_pos h] at hr; cases hr
    · rw [if_neg h] at hr
      exact (hlru.mem_erase_iff).mpr ⟨h, hWF.creating_resident r hr⟩
  · intro r hr
    rw [stateOf_evicted] at hr
    by_cases h : r = e
    · rw [if_pos h] at hr; cases hr
    · rw [if_neg h] at hr
      intro hmem
      exact hWF.deleted_detached r hr (List.mem_of_mem_erase hmem)

/-! ### Unfolding equations for the loop bodies -/

theorem spliceStep_of_nil (c : Cache) (h : c.c_lru.getLast? = none) :
    spliceStep c = c := by
  unfold spliceStep
  rw [h]

theorem spliceStep_of_tail (c : Cache) (ee : Ref)
    (h : c.c_lru.getLast? = some ee) :
    spliceStep c =
      if refcntOf c ee ≠ 0 then { c with c_lru := ee :: c.c_lru.erase ee }
      else c := by
  unfold spliceStep
  rw [h]

theorem phaseAgo_succ_of_nil (c : Cache) (n : Nat)
    (h : c.c_lru.getLast? = none) : phaseAgo c (n + 1) = c := by
  unfold phaseAgo
  rw [h]

theorem phaseAgo_succ_of_tail (c : Cache) (n : Nat) (ee : Ref)
    (h : c.c_lru.getLast? = some ee) :
    phaseAgo c (n + 1) =
      if refcntOf c ee ≠ 0 then phaseAgo (spliceStep c) n else c := by
  conv_lhs => unfold phaseAgo
  rw [h]

theorem phaseBgo_succ_of_nil (P : Ref → Payload) (c : Cache) (n : Nat)
    (h : c.c_lru.getLast? = none) : phaseBgo P (n + 1) c = c := by
  unfold phaseBgo
  rw [h]

theorem phaseBgo_succ_of_tail (P : Ref → Payload) (c : Cache) (n : Nat)
    (e : Ref) (h : c.c_lru.getLast? = some e) :
    phaseBgo P (n + 1) c =
      if refcntOf c e = 0 ∧ c.c_maxsize < c.c_cursize
        then phaseBgo P n (evictTail P c e)
        else c := by
  conv_lhs => unfold phaseBgo
  rw [h]

theorem drainGo_succ_of_nil (P : Ref → Payload) (c : Cache) (n : Nat)
    (h : c.c_lru.getLast? = none) : drainGo P (n + 1) c = c := by
  unfold drainGo
  rw [h]

theorem drainGo_succ_of_tail (P : Ref → Payload) (c : Cache) (n : Nat)
    (e : Ref) (h : c.c_lru.getLast? = some e) :
    drainGo P (n + 1) c =
      if refcntOf c e = 0 then drainGo P n (evictTail P c e) else c := by
  conv_lhs => unfold drainGo
  rw [h]

/-! ### Phase A: splicing in-use tails to the head -/

theorem spliceStep_dntree (c : Cache) : (spliceStep c).c_dntree = c.c_dntree := by
  unfold spliceStep
  split
  · rfl
  · split <;> rfl

theorem spliceStep_idtree (c : Cache) : (spliceStep c).c_idtree = c.c_idtree := by
  unfold spliceStep
  split
  · rfl
  · split <;> rfl

theorem spliceStep_cursize (c : Cache) : (spliceStep c).c_cursize = c.c_cursize := by
  unfold spliceStep
  split
  · rfl
  · split <;> rfl

theorem spliceStep_maxsize (c : Cache) : (spliceStep c).c_maxsize = c.c_maxsize := by
  unfold spliceStep
  split
  · rfl
  · split <;> rfl

theorem spliceStep_info (c : Cache) : (spliceStep c).c_info = c.c_info := by
  unfold spliceStep
  split
  · rfl
  · split <;> rfl

theorem spliceStep_freed (c : Cache) : (spliceStep c).c_freed = c.c_freed := by
  unfold spliceStep
  split
  · rfl
  · split <;> rfl

theorem spliceStep_lru_perm (c : Cache) : (spliceStep c).c_lru.Perm c.c_lru := by
  cases hee : c.c_lru.getLast? with
  | none =>
    rw [spliceStep_of_nil c hee]
  | some ee =>
    rw [spliceStep_of_tail c ee hee]
    split
    · exact (List.perm_cons_erase (mem_of_getLast? hee)).symm
    · exact List.Perm.refl _

/-- Phase A only reorders the LRU list: every other component of the
cache is untouched. -/
theorem phaseAgo_spec : ∀ (n : Nat) (c : Cache),
    (phaseAgo c n).c_dntree = c.c_dntree ∧
    (phaseAgo c n).c_idtree = c.c_idtree ∧
    (phaseAgo c n).c_cursize = c.c_cursize ∧
    (phaseAgo c n).c_maxsize = c.c_maxsize ∧
    (phaseAgo c n).c_info = c.c_info ∧
    (phaseAgo c n).c_freed = c.c_freed ∧
    (phaseAgo c n).c_lru.Perm c.c_lru := by
  intro n
  induction n with
  | zero =>
    intro c
    exact ⟨rfl, rfl, rfl, rfl, rfl, rfl, List.Perm.refl _⟩
  | succ n ih =>
    intro c
    cases hee : c.c_lru.getLast? with
    | none =>
      rw [phaseAgo_succ_of_nil c n hee]
      exact ⟨rfl, rfl, rfl, rfl, rfl, rfl, List.Perm.refl _⟩
    | some ee =>
      rw [phaseAgo_succ_of_tail c n ee hee]
      by_cases hrc : refcntOf c ee ≠ 0
      · rw [if_pos hrc]
        rcases ih (spliceStep c) with ⟨h1, h2, h3, h4, h5, h6, h7⟩
        exact ⟨h1.trans (spliceStep_dntree c), h2.trans (spliceStep_idtree c),
          h3.trans (spliceStep_cursize c), h4.trans (spliceStep_maxsize c),
          h5.trans (spliceStep_info c), h6.trans (spliceStep_freed c),
          h7.trans (spliceStep_lru_perm c)⟩
      · rw [if_neg hrc]
        exact ⟨rfl, rfl, rfl, rfl, rfl, rfl, List.Perm.refl _⟩

/-- Phase A with fuel `n` is the `n`-fold iterate of `spliceStep`:
each iteration either splices one in-use tail to the head or, once the
tail is unused (or the list empty), does nothing. -/
theorem phaseAgo_eq_iterate : ∀ (n : Nat) (c : Cache),
    phaseAgo c n = spliceStep^[n] c := by
  intro n
  induction n with
  | zero => intro c; rfl
  | succ n ih =>
    intro c
    rw [Function.iterate_succ_apply]
    cases hee : c.c_lru.getLast? with
    | none =>
      have hfix : spliceStep c = c := spliceStep_of_nil c hee
      rw [phaseAgo_succ_of_nil c n hee, hfix, Function.iterate_fixed hfix]
    | some ee =>
      rw [phaseAgo_succ_of_tail c n ee hee]
      by_cases hrc : refcntOf c ee ≠ 0
      · rw [if_pos hrc]
        exact ih (spliceStep c)
      · have hfix : spliceStep c = c := by
          rw [spliceStep_of_tail c ee hee, if_neg hrc]
        rw [if_neg hrc, hfix, Function.iterate_fixed hfix]

/-- WF transfers along an LRU permutation with all other fields equal. -/
theorem WF_of_fields_perm (P : Ref → Payload) (c c2 : Cache) (hWF : WF P c)
    (h1 : c2.c_dntree = c.c_dntree) (h2 : c2.c_idtree = c.c_idtree)
    (h3 : c2.c_lru.Perm c.c_lru) (h4 : c2.c_cursize = c.c_cursize)
    (h5 : c2.c_info = c.c_info) : WF P c2 := by
  have hst : ∀ r, stateOf c2 r = stateOf c r := by
    intro r
    simp [stateOf, h5]
  refine ⟨?_, ?_, ?_, ?_, ?_, ?_, ?_, ?_, ?_, ?_⟩
  · intro r hr
    rw [h2]
    exact hWF.dn_sub_id r (h1 ▸ hr)
  · intro r hr
    rw [h3.mem_iff]
    exact hWF.id_sub_lru r (h2 ▸ hr)
  · intro r hr
    rw [h1]
    exact hWF.lru_sub_dn r (h3.mem_iff.mp hr)
  · rw [h4, h3.length_eq, hWF.size_eq]
  · exact (h3.nodup_iff).mpr hWF.lru_nodup
  · rw [h1]; exact hWF.names_nodup
  · rw [h2]; exact hWF.ids_nodup
  · intro r hr
    rw [h5]
    exact hWF.mem_info r (h3.mem_iff.mp hr)
  · intro r hr
    rw [h3.mem_iff]
    exact hWF.creating_resident r (hst r ▸ hr)
  · intro r hr
    rw [h3.mem_iff]
    exact fun hmem => hWF.deleted_detached r (hst r ▸ hr) hmem

theorem WF_phaseAgo (P : Ref → Payload) (c : Cache) (n : Nat)
    (hWF : WF P c) : WF P (phaseAgo c n) := by
  rcases phaseAgo_spec n c with ⟨h1, h2, h3, _, h5, _, h7⟩
  exact WF_of_fields_perm P c (phaseAgo c n) hWF h1 h2 h7 h3 h5

/-! ### Phase B: evicting unused tails -/

/-- The master lemma about Phase B: it preserves WF and `c_maxsize`,
it leaves every pinned entry (nonzero refcount) resident with its slot
untouched, everything it frees was an unused resident, and — given
enough fuel, which `cache_evict` supplies — it stops only when the LRU
is empty, its tail is pinned, or the size is back within bound. -/
theorem phaseBgo_spec (P : Ref → Payload) : ∀ (n : Nat) (c : Cache),
    WF P c →
    WF P (phaseBgo P n c) ∧
    (phaseBgo P n c).c_maxsize = c.c_maxsize ∧
    (∀ r, refcntOf c r ≠ 0 →
      (phaseBgo P n c).c_info r = c.c_info r ∧
      (r ∈ c.c_lru → r ∈ (phaseBgo P n c).c_lru) ∧
      (r ∈ c.c_idtree → r ∈ (phaseBgo P n c).c_idtree) ∧
      (r ∈ c.c_dntree → r ∈ (phaseBgo P n c).c_dntree)) ∧
    (∀ r, r ∈ (phaseBgo P n c).c_freed →
      r ∈ c.c_freed ∨ (refcntOf c r = 0 ∧ r ∈ c.c_lru)) ∧
    (c.c_lru.length ≤ n →
      (phaseBgo P n c).c_lru = [] ∨
      (∃ t, (phaseBgo P n c).c_lru.getLast? = some t ∧
        refcntOf (phaseBgo P n c) t ≠ 0) ∨
      (phaseBgo P n c).c_cursize ≤ (phaseBgo P n c).c_maxsize) := by
  intro n
  induction n with
  | zero =>
    intro c hWF
    refine ⟨hWF, rfl, fun r _ => ⟨rfl, id, id, id⟩, fun r hr => Or.inl hr, ?_⟩
    intro hlen
    left
    exact List.eq_nil_of_length_eq_zero (Nat.le_zero.mp hlen)
  | succ n ih =>
    intro c hWF
    cases hee : c.c_lru.getLast? with
    | none =>
      rw [phaseBgo_succ_of_nil P c n hee]
      refine ⟨hWF, rfl, fun r _ => ⟨rfl, id, id, id⟩, fun r hr => Or.inl hr, ?_⟩
      intro _
      left
      exact List.getLast?_eq_none_iff.mp hee
    | some e =>
      rw [phaseBgo_succ_of_tail P c n e hee]
      by_cases hg : refcntOf c e = 0 ∧ c.c_maxsize < c.c_cursize
      · rw [if_pos hg]
        have he : e ∈ c.c_lru := mem_of_getLast? hee
        have hev : evictTail P c e = evictedCache c e :=
          evictTail_of_resident P c e hWF he
        have hWFe : WF P (evictedCache c e) := WF_evicted P c e hWF he
        rw [hev]
        rcases ih (evictedCache c e) hWFe with ⟨w1, w2, w3, w4, w5⟩
        refine ⟨w1, w2.trans rfl, ?_, ?_, ?_⟩
        · intro r hr
          have hne : r ≠ e := by
            intro hcontra
            rw [hcontra] at hr
            exact hr hg.1
          have hrc : refcntOf (evictedCache c e) r = refcntOf c r := by
            simp [refcntOf, evictedCache, setInfoFn_ne _ _ _ hne]
          rcases w3 r (by rw [hrc]; exact hr) with ⟨p1, p2, p3, p4⟩
          refine ⟨?_, ?_, ?_, ?_⟩
          · rw [p1]
            simp [evictedCache, setInfoFn_ne _ _ _ hne]
          · intro hmem
            exact p2 ((hWF.lru_nodup.mem_erase_iff).mpr ⟨hne, hmem⟩)
          · intro hmem
            exact p3 (((id_nodup hWF).mem_erase_iff).mpr ⟨hne, hmem⟩)
          · intro hmem
            exact p4 (((dn_nodup hWF).mem_erase_iff).mpr ⟨hne, hmem⟩)
        · intro r hr
          rcases w4 r hr with h | h
          · rcases List.mem_cons.mp h with h1 | h1
            · right
              exact ⟨h1 ▸ hg.1, h1 ▸ he⟩
            · exact Or.inl h1
          · right
            rcases h with ⟨hrc, hmem⟩
            have hne : r ≠ e := ((hWF.lru_nodup.mem_erase_iff).mp hmem).1
            refine ⟨?_, List.mem_of_mem_erase hmem⟩
            rw [← hrc]
            simp [refcntOf, evictedCache, setInfoFn_ne _ _ _ hne]
        · intro hlen
          apply w5
          have hpos : 0 < c.c_lru.length := List.length_pos.mpr (by
            intro hnil; rw [hnil] at he; cases he)
          show (c.c_lru.erase e).length ≤ n
          rw [List.length_erase_of_mem he]
          omega
      · rw [if_neg hg]
        refine ⟨hWF, rfl, fun r _ => ⟨rfl, id, id, id⟩, fun r hr => Or.inl hr, ?_⟩
        intro _
        right
        by_cases hrc : refcntOf c e = 0
        · right
          rcases not_and_or.mp hg with h | h
          · exact absurd hrc h
          · exact le_of_not_lt h
        · left
          exact ⟨e, hee, hrc⟩

theorem WF_cache_evict (P : Ref → Payload) (c : Cache) (hWF : WF P c) :
    WF P (cache_evict P c) :=
  (phaseBgo_spec P _ _ (WF_phaseAgo P c 10 hWF)).1

/-! ### Drain -/

theorem drainGo_WF (P : Ref → Payload) : ∀ (n : Nat) (c : Cache),
    WF P c → WF P (drainGo P n c) := by
  intro n
  induction n with
  | zero => intro c hWF; exact hWF
  | succ n ih =>
    intro c hWF
    cases hee : c.c_lru.getLast? with
    | none =>
      rw [drainGo_succ_of_nil P c n hee]
      exact hWF
    | some e =>
      rw [drainGo_succ_of_tail P c n e hee]
      by_cases hrc : refcntOf c e = 0
      · rw [if_pos hrc]
        have he : e ∈ c.c_lru := mem_of_getLast? hee
        rw [evictTail_of_resident P c e hWF he]
        exact ih _ (WF_evicted P c e hWF he)
      · rw [if_neg hrc]
        exact hWF

theorem relFun_state (rw : Bool) (i : EntryInfo) :
    (relFun rw i).lei_state = i.lei_state := by
  cases rw <;> simp [relFun]

theorem relFun_refcnt (rw : Bool) (i : EntryInfo) :
    (relFun rw i).lei_refcnt = i.lei_refcnt - 1 := by
  cases rw <;> simp [relFun]

theorem modInfo_modInfo (c : Cache) (e : Ref) (f g : EntryInfo → EntryInfo) :
    modInfo (modInfo c e f) e g = modInfo c e (fun i => g (f i)) := by
  simp only [modInfo, setInfoFn_same, setInfoFn_setInfoFn, Option.map_map]
  rfl

theorem return_entry_unfold (P : Ref → Payload) (c : Cache) (e : Ref)
    (rw : Bool) (i0 : EntryInfo) (hi0 : c.c_info e = some i0) :
    cache_return_entry_rw P c e rw =
      (let c2 := modInfo c e (relFun rw)
       let refcnt := refcntOf c2 e
       let step := if stateOf c2 e = some CState.creating
           then ((cache_delete_entry_internal P c2 e).2, false)
           else (c2, true)
       let c3 := step.1
       let freeit := step.2
       if stateOf c3 e = some CState.committed then setState c3 e CState.ready
       else if stateOf c3 e = some CState.deleted then
         if 0 < refcnt then c3
         else
           let c4 := cache_entry_private_destroy c3 e
           if freeit then { c4 with c_freed := e :: c4.c_freed } else c4
       else c3) := by
  conv_lhs => unfold cache_return_entry_rw
  rw [hi0]
  show (let c1 := cache_entry_rdwr_unlock c e rw
        let c2 := modInfo c1 e (fun i => { i with lei_refcnt := i.lei_refcnt - 1 })
        let refcnt := refcntOf c2 e
        let step := if stateOf c2 e = some CState.creating
            then ((cache_delete_entry_internal P c2 e).2, false)
            else (c2, true)
        let c3 := step.1
        let freeit := step.2
        if stateOf c3 e = some CState.committed then setState c3 e CState.ready
        else if stateOf c3 e = some CState.deleted then
          if 0 < refcnt then c3
          else
            let c4 := cache_entry_private_destroy c3 e
            if freeit then { c4 with c_freed := e :: c4.c_freed } else c4
        else c3) = _
  simp only [cache_entry_rdwr_unlock, modInfo_modInfo]
  rfl

theorem WF_delInfo_of_not_lru (P : Ref → Payload) (c : Cache) (e : Ref)
    (hWF : WF P c) (he : e ∉ c.c_lru) : WF P (delInfo c e) := by
  have hst : ∀ r, stateOf (delInfo c e) r =
      if r = e then none else stateOf c r := by
    intro r
    by_cases h : r = e
    · subst h; simp [stateOf, delInfo]
    · simp [stateOf, delInfo, setInfoFn_ne _ _ _ h, h]
  refine ⟨hWF.dn_sub_id, hWF.id_sub_lru, hWF.lru_sub_dn, hWF.size_eq,
    hWF.lru_nodup, hWF.names_nodup, hWF.ids_nodup, ?_, ?_, ?_⟩
  · intro r hr
    have hne : r ≠ e := by
      intro hcontra
      exact he (hcontra ▸ hr)
    show (setInfoFn c.c_info e none r).isSome = true
    rw [setInfoFn_ne _ _ _ hne]
    exact hWF.mem_info r hr
  · intro r hr
    rw [hst r] at hr
    by_cases h : r = e
    · rw [if_pos h] at hr; cases hr
    · rw [if_neg h] at hr
      exact hWF.creating_resident r hr
  · intro r hr
    rw [hst r] at hr
    by_cases h : r = e
    · rw [if_pos h] at hr; cases hr
    · rw [if_neg h] at hr
      exact hWF.deleted_detached r hr

theorem WF_setState_visible (P : Ref → Payload) (c : Cache) (e : Ref)
    (s : CState) (hWF : WF P c) (h1 : s ≠ CState.creating)
    (h2 : s ≠ CState.deleted) : WF P (setState c e s) := by
  refine ⟨hWF.dn_sub_id, hWF.id_sub_lru, hWF.lru_sub_dn, hWF.size_eq,
    hWF.lru_nodup, hWF.names_nodup, hWF.ids_nodup, ?_, ?_, ?_⟩
  · intro r hr
    simp only [setState]
    rw [isSome_modInfo]
    exact hWF.mem_info r hr
  · intro r hr
    simp only [setState] at hr
    rw [stateOf_modInfo] at hr
    by_cases h : r = e
    · rw [if_pos h] at hr
      exfalso
      cases hc : c.c_info e with
      | none => rw [hc] at hr; simp at hr
      | some i => rw [hc] at hr; simp at hr; exact h1 hr
    · rw [if_neg h] at hr
      exact hWF.creating_resident r hr
  · intro r hr
    simp only [setState] at hr
    rw [stateOf_modInfo] at hr
    by_cases h : r = e
    · rw [if_pos h] at hr
      exfalso
      cases hc : c.c_info e with
      | none => rw [hc] at hr; simp at hr
      | some i => rw [hc] at hr; simp at hr; exact h2 hr
    · rw [if_neg h] at hr
      exact hWF.deleted_detached r hr

theorem rel_hi2 (P : Ref → Payload) (c : Cache) (e : Ref) (rw : Bool)
    (i0 : EntryInfo) (hi0 : c.c_info e = some i0) :
    (modInfo c e (relFun rw)).c_info e = some (relFun rw i0) := by
  rw [modInfo_info]
  simp [hi0]

theorem rel_hst2 (P : Ref → Payload) (c : Cache) (e : Ref) (rw : Bool)
    (i0 : EntryInfo) (hi0 : c.c_info e = some i0) :
    stateOf (modInfo c e (relFun rw)) e = some i0.lei_state := by
  simp [stateOf, rel_hi2 P c e rw i0 hi0, relFun_state]

theorem rel_hrc2 (P : Ref → Payload) (c : Cache) (e : Ref) (rw : Bool)
    (i0 : EntryInfo) (hi0 : c.c_info e = some i0) :
    refcntOf (modInfo c e (relFun rw)) e = i0.lei_refcnt - 1 := by
  simp [refcntOf, rel_hi2 P c e rw i0 hi0, relFun_refcnt]

/-- Release of a `CREATING` entry whose refcount drops below 1:
internal delete, then slot destruction, the payload is *not* freed. -/
theorem release_creating_zero_eq (P : Ref → Payload) (c : Cache) (e : Ref)
    (rw : Bool) (i0 : EntryInfo) (hWF : WF P c) (hi0 : c.c_info e = some i0)
    (hs : i0.lei_state = CState.creating) (hk : ¬ 0 < i0.lei_refcnt - 1) :
    cache_return_entry_rw P c e rw =
      cache_entry_private_destroy
        (detachedCache (modInfo c e (relFun rw)) e) e := by
  have hWF2 : WF P (modInfo c e (relFun rw)) :=
    WF_modInfo P c e (relFun rw) hWF (relFun_state rw)
  have he : e ∈ c.c_lru := hWF.creating_resident e (by
    simp [stateOf, hi0, hs])
  have hdn : e ∈ c.c_dntree := hWF.lru_sub_dn e he
  have hint := internal_delete_of_resident P (modInfo c e (relFun rw)) e
    hWF2 hdn
  have hstD : stateOf (detachedCache (modInfo c e (relFun rw)) e) e =
      some CState.deleted := by
    rw [stateOf_detached]
    simp [rel_hi2 P c e rw i0 hi0]
  rw [return_entry_unfold P c e rw i0 hi0]
  simp [rel_hst2 P c e rw i0 hi0, rel_hrc2 P c e rw i0 hi0, hs, hint, hstD, hk]

/-- Release of a `CREATING` entry whose refcount stays positive:
internal delete only. -/
theorem release_creating_pos_eq (P : Ref → Payload) (c : Cache) (e : Ref)
    (rw : Bool) (i0 : EntryInfo) (hWF : WF P c) (hi0 : c.c_info e = some i0)
    (hs : i0.lei_state = CState.creating) (hk : 0 < i0.lei_refcnt - 1) :
    cache_return_entry_rw P c e rw =
      detachedCache (modInfo c e (relFun rw)) e := by
  have hWF2 : WF P (modInfo c e (relFun rw)) :=
    WF_modInfo P c e (relFun rw) hWF (relFun_state rw)
  have he : e ∈ c.c_lru := hWF.creating_resident e (by
    simp [stateOf, hi0, hs])
  have hdn : e ∈ c.c_dntree := hWF.lru_sub_dn e he
  have hint := internal_delete_of_resident P (modInfo c e (relFun rw)) e
    hWF2 hdn
  have hstD : stateOf (detachedCache (modInfo c e (relFun rw)) e) e =
      some CState.deleted := by
    rw [stateOf_detached]
    simp [rel_hi2 P c e rw i0 hi0]
  rw [return_entry_unfold P c e rw i0 hi0]
  simp [rel_hst2 P c e rw i0 hi0, rel_hrc2 P c e rw i0 hi0, hs, hint, hstD, hk]

/-- Release of a `COMMITTED` entry: promote to `READY`. -/
theorem release_committed_eq (P : Ref → Payload) (c : Cache) (e : Ref)
    (rw : Bool) (i0 : EntryInfo) (hi0 : c.c_info e = some i0)
    (hs : i0.lei_state = CState.committed) :
    cache_return_entry_rw P c e rw =
      setState (modInfo c e (relFun rw)) e CState.ready := by
  rw [return_entry_unfold P c e rw i0 hi0]
  simp [rel_hst2 P c e rw i0 hi0, hs]

/-- Release of a `DELETED` entry with other borrows outstanding:
only the slot update happens. -/
theorem release_deleted_pos_eq (P : Ref → Payload) (c : Cache) (e : Ref)
    (rw : Bool) (i0 : EntryInfo) (hi0 : c.c_info e = some i0)
    (hs : i0.lei_state = CState.deleted) (hk : 0 < i0.lei_refcnt - 1) :
    cache_return_entry_rw P c e rw = modInfo c e (relFun rw) := by
  rw [return_entry_unfold P c e rw i0 hi0]
  simp [rel_hst2 P c e rw i0 hi0, rel_hrc2 P c e rw i0 hi0, hs, hk]

/-- Release of a `DELETED` entry by its last borrower: the slot is
destroyed and the payload freed. -/
theorem release_deleted_zero_eq (P : Ref → Payload) (c : Cache) (e : Ref)
    (rw : Bool) (i0 : EntryInfo) (hi0 : c.c_info e = some i0)
    (hs : i0.lei_state = CState.deleted) (hk : ¬ 0 < i0.lei_refcnt - 1) :
    cache_return_entry_rw P c e rw =
      { cache_entry_private_destroy (modInfo c e (relFun rw)) e with
          c_freed := e :: c.c_freed } := by
  rw [return_entry_unfold P c e rw i0 hi0]
  simp [rel_hst2 P c e rw i0 hi0, rel_hrc2 P c e rw i0 hi0, hs, hk,
    cache_entry_private_destroy, delInfo]

/-- Release of an entry in any other state (`READY`, `UNDEFINED`):
only the slot update happens. -/
theorem release_other_eq (P : Ref → Payload) (c : Cache) (e : Ref)
    (rw : Bool) (i0 : EntryInfo) (hi0 : c.c_info e = some i0)
    (hs1 : i0.lei_state ≠ CState.creating)
    (hs2 : i0.lei_state ≠ CState.committed)
    (hs3 : i0.lei_state ≠ CState.deleted) :
    cache_return_entry_rw P c e rw = modInfo c e (relFun rw) := by
  rw [return_entry_unfold P c e rw i0 hi0]
  simp [rel_hst2 P c e rw i0 hi0, hs1, hs2, hs3]

theorem WF_release (P : Ref → Payload) (c : Cache) (e : Ref) (rw : Bool)
    (hWF : WF P c) (hsome : (c.c_info e).isSome = true) :
    WF P (cache_return_entry_rw P c e rw) := by
  obtain ⟨i0, hi0⟩ := Option.isSome_iff_exists.mp hsome
  have hWF2 : WF P (modInfo c e (relFun rw)) :=
    WF_modInfo P c e (relFun rw) hWF (relFun_state rw)
  by_cases hs : i0.lei_state = CState.creating
  · have he : e ∈ c.c_lru := hWF.creating_resident e (by
      simp [stateOf, hi0, hs])
    have hWFd : WF P (detachedCache (modInfo c e (relFun rw)) e) :=
      WF_detached P _ e hWF2 he
    by_cases hk : 0 < i0.lei_refcnt - 1
    · rw [release_creating_pos_eq P c e rw i0 hWF hi0 hs hk]
      exact hWFd
    · rw [release_creating_zero_eq P c e rw i0 hWF hi0 hs hk]
      apply WF_delInfo_of_not_lru P _ e hWFd
      show e ∉ (modInfo c e (relFun rw)).c_lru.erase e
      intro hmem
      exact ((hWF.lru_nodup.mem_erase_iff).mp hmem).1 rfl
  · by_cases hcom : i0.lei_state = CState.committed
    · rw [release_committed_eq P c e rw i0 hi0 hcom]
      exact WF_setState_visible P _ e CState.ready hWF2 (by decide) (by decide)
    · by_cases hdel : i0.lei_state = CState.deleted
      · have heD : e ∉ c.c_lru := hWF.deleted_detached e (by
          simp [stateOf, hi0, hdel])
        by_cases hk : 0 < i0.lei_refcnt - 1
        · rw [release_deleted_pos_eq P c e rw i0 hi0 hdel hk]
          exact hWF2
        · rw [release_deleted_zero_eq P c e rw i0 hi0 hdel hk]
          apply WF_of_fields_perm P
            (cache_entry_private_destroy (modInfo c e (relFun rw)) e)
          · exact WF_delInfo_of_not_lru P _ e hWF2 heD
          · rfl
          · rfl
          · exact List.Perm.refl _
          · rfl
          · rfl
      · rw [release_other_eq P c e rw i0 hi0 hs hcom hdel]
        exact hWF2

/-! ### The lookup paths -/

theorem fid_absent (P : Ref → Payload) (c : Cache) (i : EntryID) (rw : Bool)
    (h : c.c_idtree.find? (fun r => (P r).e_id == i) = none) :
    cache_find_entry_id_step P c i rw = (IdFind.absent, c) := by
  conv_lhs => unfold cache_find_entry_id_step
  rw [h]

theorem fid_step_found_case (P : Ref → Payload) (c : Cache) (i : EntryID)
    (rw : Bool) (ep : Ref)
    (h : c.c_idtree.find? (fun r => (P r).e_id == i) = some ep) :
    cache_find_entry_id_step P c i rw =
      (if stateOf c ep ≠ some CState.ready then (IdFind.retry, c)
       else if trylockBusy c ep rw then (IdFind.retry, c)
       else (IdFind.found ep,
         modInfo
           { cache_entry_rdwr_lock c ep rw with
               c_lru := ep :: (cache_entry_rdwr_lock c ep rw).c_lru.erase ep }
           ep (fun j => { j with lei_refcnt := j.lei_refcnt + 1 }))) := by
  conv_lhs => unfold cache_find_entry_id_step
  rw [h]

theorem fid_notready (P : Ref → Payload) (c : Cache) (i : EntryID) (rw : Bool)
    (ep : Ref) (h : c.c_idtree.find? (fun r => (P r).e_id == i) = some ep)
    (hst : stateOf c ep ≠ some CState.ready) :
    cache_find_entry_id_step P c i rw = (IdFind.retry, c) := by
  rw [fid_step_found_case P c i rw ep h, if_pos hst]

theorem fid_busy (P : Ref → Payload) (c : Cache) (i : EntryID) (rw : Bool)
    (ep : Ref) (h : c.c_idtree.find? (fun r => (P r).e_id == i) = some ep)
    (hst : stateOf c ep = some CState.ready)
    (hb : trylockBusy c ep rw = true) :
    cache_find_entry_id_step P c i rw = (IdFind.retry, c) := by
  rw [fid_step_found_case P c i rw ep h, if_neg (not_not_intro hst),
    if_pos hb]

theorem fid_found (P : Ref → Payload) (c : Cache) (i : EntryID) (rw : Bool)
    (ep : Ref) (h : c.c_idtree.find? (fun r => (P r).e_id == i) = some ep)
    (hst : stateOf c ep = some CState.ready)
    (hb : trylockBusy c ep rw = false) :
    cache_find_entry_id_step P c i rw =
      (IdFind.found ep,
        modInfo
          { cache_entry_rdwr_lock c ep rw with
              c_lru := ep :: (cache_entry_rdwr_lock c ep rw).c_lru.erase ep }
          ep (fun j => { j with lei_refcnt := j.lei_refcnt + 1 })) := by
  rw [fid_step_found_case P c i rw ep h, if_neg (not_not_intro hst),
    if_neg (by simp [hb])]

theorem fnd_noid (P : Ref → Payload) (c : Cache) (n : String)
    (h : c.c_dntree.find? (fun r => (P r).e_nname == n) = none) :
    cache_find_entry_ndn2id_step P c n = (NameFind.noid, c) := by
  conv_lhs => unfold cache_find_entry_ndn2id_step
  rw [h]

theorem fnd_step_found_case (P : Ref → Payload) (c : Cache) (n : String)
    (ep : Ref) (h : c.c_dntree.find? (fun r => (P r).e_nname == n) = some ep) :
    cache_find_entry_ndn2id_step P c n =
      (if stateOf c ep ≠ some CState.ready then (NameFind.retry, c)
       else (NameFind.found (P ep).e_id,
         { c with c_lru := ep :: c.c_lru.erase ep })) := by
  conv_lhs => unfold cache_find_entry_ndn2id_step
  rw [h]

theorem fnd_notready (P : Ref → Payload) (c : Cache) (n : String) (ep : Ref)
    (h : c.c_dntree.find? (fun r => (P r).e_nname == n) = some ep)
    (hst : stateOf c ep ≠ some CState.ready) :
    cache_find_entry_ndn2id_step P c n = (NameFind.retry, c) := by
  rw [fnd_step_found_case P c n ep h, if_pos hst]

theorem fnd_found (P : Ref → Payload) (c : Cache) (n : String) (ep : Ref)
    (h : c.c_dntree.find? (fun r => (P r).e_nname == n) = some ep)
    (hst : stateOf c ep = some CState.ready) :
    cache_find_entry_ndn2id_step P c n =
      (NameFind.found (P ep).e_id,
        { c with c_lru := ep :: c.c_lru.erase ep }) := by
  rw [fnd_step_found_case P c n ep h, if_neg (not_not_intro hst)]

theorem WF_move_front (P : Ref → Payload) (c : Cache) (ep : Ref)
    (hWF : WF P c) (he : ep ∈ c.c_lru) :
    WF P { c with c_lru := ep :: c.c_lru.erase ep } := by
  exact WF_of_fields_perm P c _ hWF rfl rfl
    ((List.perm_cons_erase he).symm) rfl rfl

theorem WF_find_id_step (P : Ref → Payload) (c : Cache) (i : EntryID)
    (rw : Bool) (hWF : WF P c) :
    WF P (cache_find_entry_id_step P c i rw).2 := by
  cases h : c.c_idtree.find? (fun r => (P r).e_id == i) with
  | none =>
    rw [fid_absent P c i rw h]
    exact hWF
  | some ep =>
    have hep : ep ∈ c.c_lru :=
      hWF.id_sub_lru ep (List.mem_of_find?_eq_some h)
    by_cases hst : stateOf c ep = some CState.ready
    · by_cases hb : trylockBusy c ep rw = true
      · rw [fid_busy P c i rw ep h hst hb]
        exact hWF
      · rw [fid_found P c i rw ep h hst (by simpa using hb)]
        apply WF_modInfo
        · apply WF_of_fields_perm P (cache_entry_rdwr_lock c ep rw)
          · apply WF_modInfo
            · exact hWF
            · intro j
              cases rw <;> simp
          · rfl
          · rfl
          · show (ep :: (cache_entry_rdwr_lock c ep rw).c_lru.erase ep).Perm _
            exact (List.perm_cons_erase (by exact hep)).symm
          · rfl
          · rfl
        · intro j
          simp
    · rw [fid_notready P c i rw ep h hst]
      exact hWF

theorem WF_find_name_step (P : Ref → Payload) (c : Cache) (n : String)
    (hWF : WF P c) : WF P (cache_find_entry_ndn2id_step P c n).2 := by
  cases h : c.c_dntree.find? (fun r => (P r).e_nname == n) with
  | none =>
    rw [fnd_noid P c n h]
    exact hWF
  | some ep =>
    have hep : ep ∈ c.c_lru := by
      have hmem := List.mem_of_find?_eq_some h
      exact hWF.id_sub_lru ep (hWF.dn_sub_id ep hmem)
    by_cases hst : stateOf c ep = some CState.ready
    · rw [fnd_found P c n ep h hst]
      exact WF_move_front P c ep hWF hep
    · rw [fnd_notready P c n ep h hst]
      exact hWF

/-! ### WF preservation of the remaining public operations -/

theorem WF_commit (P : Ref → Payload) (c : Cache) (e : Ref) (hWF : WF P c) :
    WF P (cache_entry_commit c e) :=
  WF_setState_visible P c e CState.committed hWF (by decide) (by decide)

theorem WF_delete_op (P : Ref → Payload) (c : Cache) (e : Ref)
    (hWF : WF P c) (he : e ∈ c.c_idtree) :
    WF P (cache_delete_entry P c e).2 := by
  have hdn : e ∈ c.c_dntree :=
    hWF.lru_sub_dn e (hWF.id_sub_lru e he)
  show WF P (cache_delete_entry_internal P c e).2
  rw [internal_delete_of_resident P c e hWF hdn]
  exact WF_detached P c e hWF (hWF.id_sub_lru e he)

theorem WF_insert_op (P : Ref → Payload) (c : Cache) (e : Ref) (rw : Bool)
    (hWF : WF P c) (h0 : c.c_info e = none) :
    WF P (cache_add_entry_rw P c e rw).2 := by
  by_cases hdn : c.c_dntree.any (entry_dn_match P e) = true
  · rw [add_dup_name P c e rw h0 hdn]
    exact hWF
  · have hdn' : c.c_dntree.any (entry_dn_match P e) = false := by
      simpa using hdn
    by_cases hid : c.c_idtree.any (entry_id_match P e) = true
    · rw [add_dup_id P c e rw h0 hdn' hid]
      exact hWF
    · have hid' : c.c_idtree.any (entry_id_match P e) = false := by
        simpa using hid
      rw [add_success P c e rw h0 hdn' hid']
      have hWFi : WF P (insertedCache c e rw) := by
        apply WF_inserted P c e rw hWF h0
        · intro r hr
          have := (List.any_eq_false.mp hdn') r hr
          simpa [entry_dn_match] using this
        · intro r hr
          have := (List.any_eq_false.mp hid') r hr
          simpa [entry_id_match] using this
      show WF P (if _ then cache_evict P (insertedCache c e rw)
        else insertedCache c e rw)
      split
      · exact WF_cache_evict P _ hWFi
      · exact hWFi

theorem WF_drain (P : Ref → Payload) (c : Cache) (hWF : WF P c) :
    WF P (cache_release_all P c) :=
  drainGo_WF P c.c_lru.length c hWF

theorem WF_runOp (P : Ref → Payload) (c : Cache) (op : Op)
    (hWF : WF P c) (hL : Legal c op) : WF P (runOp P c op) := by
  cases op with
  | insert e rw => exact WF_insert_op P c e rw hWF hL
  | lookupId i rw => exact WF_find_id_step P c i rw hWF
  | lookupName n => exact WF_find_name_step P c n hWF
  | commit e => exact WF_commit P c e hWF
  | release e rw => exact WF_release P c e rw hWF hL.1
  | delete e => exact WF_delete_op P c e hWF hL.1
  | drain => exact WF_drain P c hWF

theorem WF_cacheInit (P : Ref → Payload) (m : Int) : WF P (cacheInit m) := by
  refine ⟨?_, ?_, ?_, ?_, ?_, ?_, ?_, ?_, ?_, ?_⟩ <;>
    simp [cacheInit, stateOf]

theorem WF_of_reachable (P : Ref → Payload) (c : Cache)
    (h : Reachable P c) : WF P c := by
  induction h with
  | init m hm => exact WF_cacheInit P m
  | step hr hL ih => exact WF_runOp P _ _ ih hL

/-! ### Helper facts feeding the specification theorems -/

theorem map_nodup_key_ne {α : Type} (k : Ref → α) (l : List Ref)
    (hnd : (l.map k).Nodup) (e r : Ref) (he : e ∈ l) (hr : r ∈ l)
    (hne : r ≠ e) : k r ≠ k e := by
  intro heq
  exact hne (List.inj_on_of_nodup_map hnd hr he heq)

theorem find_id_fuel_succ (P : Ref → Payload) (n : Nat) (c c1 : Cache)
    (i : EntryID) (rw : Bool)
    (hstep : cache_find_entry_id_step P c i rw = (IdFind.retry, c1)) :
    cache_find_entry_id P (n + 1) c i rw = cache_find_entry_id P n c1 i rw := by
  conv_lhs => unfold cache_find_entry_id
  rw [hstep]

/-- The full postcondition of a collision-free insert: success, WF,
in both trees and the LRU, slot `CREATING` with refcount 1 and the
entry lock taken in mode `rw`. -/
theorem add_success_resident (P : Ref → Payload) (c : Cache) (e : Ref)
    (rw : Bool) (hWF : WF P c) (h0 : c.c_info e = none)
    (hdn : c.c_dntree.any (entry_dn_match P e) = false)
    (hid : c.c_idtree.any (entry_id_match P e) = false) :
    (cache_add_entry_rw P c e rw).1 = 0 ∧
    WF P (cache_add_entry_rw P c e rw).2 ∧
    (cache_add_entry_rw P c e rw).2.c_info e =
      some { lei_state := CState.creating, lei_refcnt := 1,
             lei_readers := if rw then 0 else 1, lei_writer := rw } ∧
    e ∈ (cache_add_entry_rw P c e rw).2.c_dntree ∧
    e ∈ (cache_add_entry_rw P c e rw).2.c_idtree ∧
    e ∈ (cache_add_entry_rw P c e rw).2.c_lru := by
  have hdn' : ∀ r ∈ c.c_dntree, (P r).e_nname ≠ (P e).e_nname := by
    intro r hr
    have := (List.any_eq_false.mp hdn) r hr
    simpa [entry_dn_match] using this
  have hid' : ∀ r ∈ c.c_idtree, (P r).e_id ≠ (P e).e_id := by
    intro r hr
    have := (List.any_eq_false.mp hid) r hr
    simpa [entry_id_match] using this
  have hWFi : WF P (insertedCache c e rw) :=
    WF_inserted P c e rw hWF h0 hdn' hid'
  have hii : (insertedCache c e rw).c_info e =
      some { lei_state := CState.creating, lei_refcnt := 1,
             lei_readers := if rw then 0 else 1, lei_writer := rw } := by
    simp [insertedCache]
  rw [add_success P c e rw h0 hdn hid]
  by_cases hev : c.c_maxsize < c.c_cursize + 1
  · rw [if_pos hev]
    rcases phaseAgo_spec 10 (insertedCache c e rw) with
      ⟨a1, a2, _, _, a5, _, a7⟩
    have hWFa : WF P (phaseAgo (insertedCache c e rw) 10) :=
      WF_phaseAgo P _ 10 hWFi
    have hra : refcntOf (phaseAgo (insertedCache c e rw) 10) e ≠ 0 := by
      simp [refcntOf, a5, hii]
    rcases phaseBgo_spec P (phaseAgo (insertedCache c e rw) 10).c_lru.length
      (phaseAgo (insertedCache c e rw) 10) hWFa with ⟨b1, _, b3, _, _⟩
    rcases b3 e hra with ⟨p1, p2, p3, p4⟩
    refine ⟨rfl, b1, ?_, ?_, ?_, ?_⟩
    · show (cache_evict P (insertedCache c e rw)).c_info e = _
      show (phaseBgo P _ _).c_info e = _
      rw [p1, a5, hii]
    · exact p4 (a1 ▸ List.mem_cons_self _ _)
    · exact p3 (a2 ▸ List.mem_cons_self _ _)
    · exact p2 (a7.mem_iff.mpr (List.mem_cons_self _ _))
  · rw [if_neg hev]
    exact ⟨rfl, hWFi, hii, List.mem_cons_self _ _, List.mem_cons_self _ _,
      List.mem_cons_self _ _⟩

/-! ### The claims -/

/-- C1: for every legal sequence of public cache operations starting
from an opened cache, at every quiescent point an entry is a member of
the name index iff it is a member of the id index iff it is a member of
the LRU list, and `c_cursize` equals the length of the LRU list. -/
theorem claim_C1_cross_index_invariant (P : Ref → Payload) (c : Cache)
    (h : Reachable P c) :
    (∀ r : Ref, (r ∈ c.c_dntree ↔ r ∈ c.c_idtree) ∧
      (r ∈ c.c_idtree ↔ r ∈ c.c_lru)) ∧
    c.c_cursize = (c.c_lru.length : Int) := by
  have hWF := WF_of_reachable P c h
  refine ⟨fun r => ⟨⟨fun hr => hWF.dn_sub_id r hr,
    fun hr => hWF.lru_sub_dn r (hWF.id_sub_lru r hr)⟩,
    ⟨fun hr => hWF.id_sub_lru r hr,
     fun hr => hWF.dn_sub_id r (hWF.lru_sub_dn r hr)⟩⟩, hWF.size_eq⟩

theorem claim_C1_witness :
    (∀ r : Ref,
      (r ∈ (runOp Pabc (cacheInit 4) (Op.insert 1 true)).c_dntree ↔
        r ∈ (runOp Pabc (cacheInit 4) (Op.insert 1 true)).c_idtree) ∧
      (r ∈ (runOp Pabc (cacheInit 4) (Op.insert 1 true)).c_idtree ↔
        r ∈ (runOp Pabc (cacheInit 4) (Op.insert 1 true)).c_lru)) ∧
    (runOp Pabc (cacheInit 4) (Op.insert 1 true)).c_cursize =
      ((runOp Pabc (cacheInit 4) (Op.insert 1 true)).c_lru.length : Int) :=
  claim_C1_cross_index_invariant Pabc _
    (Reachable.step (Reachable.init 4 (by decide)) (by decide))

/-- C2 counterexample: inserting an entry whose id (but not name) is
already resident returns `-1` — the code's "something bad happened"
outcome — not the "already existed" outcome 1, refuting the claim that
every duplicate insert reports Duplicate. -/
theorem claim_C2_cex :
    (∃ r ∈ cDupBase.c_idtree, (Pdup r).e_id = (Pdup 2).e_id) ∧
    cDupBase.c_info 2 = none ∧
    (cache_add_entry_rw Pdup cDupBase 2 true).1 = -1 ∧
    ¬((cache_add_entry_rw Pdup cDupBase 2 true).1 = 1) := by
  decide

/-- C2 (amended): an insert of an entry whose name is already resident
returns 1 (the Duplicate outcome); an insert whose id (but not name) is
already resident returns `-1` (the Error code); in both cases the cache
is unchanged and the entry's private slot is not attached on return. -/
theorem claim_C2_insert_duplicate (P : Ref → Payload) (c : Cache) (e : Ref)
    (rw : Bool) (h0 : c.c_info e = none) :
    (c.c_dntree.any (entry_dn_match P e) = true →
      cache_add_entry_rw P c e rw = (1, c) ∧
      (cache_add_entry_rw P c e rw).2.c_info e = none) ∧
    (c.c_dntree.any (entry_dn_match P e) = false →
      c.c_idtree.any (entry_id_match P e) = true →
      cache_add_entry_rw P c e rw = (-1, c) ∧
      (cache_add_entry_rw P c e rw).2.c_info e = none) := by
  constructor
  · intro hdn
    have h1 := add_dup_name P c e rw h0 hdn
    exact ⟨h1, by rw [h1]; exact h0⟩
  · intro hdn hid
    have h1 := add_dup_id P c e rw h0 hdn hid
    exact ⟨h1, by rw [h1]; exact h0⟩

theorem claim_C2_witness :
    cache_add_entry_rw Pdup cDupBase 3 true = (1, cDupBase) :=
  (((claim_C2_insert_duplicate Pdup cDupBase 3 true (by decide)).1)
    (by decide)).1

/-- C10: the internal delete is not atomic on failure — when the entry
is found in exactly one of the two indexes, that index still loses its
matching element while the operation returns `-1`, and the LRU list,
`c_cursize` and every slot state are untouched, so a failing delete can
itself break the cross-index membership invariant. -/
theorem claim_C10_internal_delete_nonatomic (P : Ref → Payload) (c : Cache)
    (e f0 : Ref) :
    (c.c_dntree.find? (entry_dn_match P e) = some f0 →
      (∀ r ∈ c.c_idtree, (P r).e_id ≠ (P e).e_id) →
      cache_delete_entry_internal P c e =
        (-1, { c with c_dntree := c.c_dntree.eraseP (entry_dn_match P e) }) ∧
      (c.c_dntree.eraseP (entry_dn_match P e)).length + 1 =
        c.c_dntree.length) ∧
    ((∀ r ∈ c.c_dntree, (P r).e_nname ≠ (P e).e_nname) →
      c.c_idtree.find? (entry_id_match P e) = some f0 →
      cache_delete_entry_internal P c e =
        (-1, { c with c_idtree := c.c_idtree.eraseP (entry_id_match P e) }) ∧
      (c.c_idtree.eraseP (entry_id_match P e)).length + 1 =
        c.c_idtree.length) := by
  constructor
  · intro hdn hid
    refine ⟨internal_delete_dn_only P c e f0 hdn hid, ?_⟩
    have hmem : f0 ∈ c.c_dntree := List.mem_of_find?_eq_some hdn
    have hp : entry_dn_match P e f0 = true := List.find?_some hdn
    have hlen := List.length_eraseP_of_mem hmem hp
    have hpos : 0 < c.c_dntree.length := List.length_pos.mpr (by
      intro hnil; rw [hnil] at hmem; cases hmem)
    omega
  · intro hdn hid
    refine ⟨internal_delete_id_only P c e f0 hdn hid, ?_⟩
    have hmem : f0 ∈ c.c_idtree := List.mem_of_find?_eq_some hid
    have hp : entry_id_match P e f0 = true := List.find?_some hid
    have hlen := List.length_eraseP_of_mem hmem hp
    have hpos : 0 < c.c_idtree.length := List.length_pos.mpr (by
      intro hnil; rw [hnil] at hmem; cases hmem)
    omega

theorem claim_C10_witness :
    cache_delete_entry_internal Pdup cDupBase 2 =
      (-1, { cDupBase with
        c_idtree := cDupBase.c_idtree.eraseP (entry_id_match Pdup 2) }) ∧
    (cDupBase.c_idtree.eraseP (entry_id_match Pdup 2)).length + 1 =
      cDupBase.c_idtree.length :=
  ((claim_C10_internal_delete_nonatomic Pdup cDupBase 2 1).2
    (by decide) (by decide))

theorem info_some_of_state (c : Cache) (e : Ref) (s : CState)
    (h : stateOf c e = some s) :
    ∃ j, c.c_info e = some j ∧ j.lei_state = s := by
  cases hc : c.c_info e with
  | none =>
    rw [stateOf, hc] at h
    cases h
  | some j =>
    rw [stateOf, hc] at h
    exact ⟨j, rfl, by simpa using h⟩

theorem refcnt_of_info_some (c : Cache) (e : Ref) (j : EntryInfo)
    (h : c.c_info e = some j) : refcntOf c e = j.lei_refcnt := by
  simp [refcntOf, h]

/-- C5: `lookup_id(id, mode)` — if the id is absent from the id index
the result is None and the cache is untouched; if the entry is present,
`READY`, and the per-entry try-lock succeeds, the entry moves to the
LRU head, its refcount grows by exactly 1, and a borrow of that entry
is returned (indexes and size untouched); if the entry is not `READY`
or the try-lock is busy, the pass leaves the cache unchanged and the
operation retries from the index search. -/
theorem claim_C5_lookup_id_step (P : Ref → Payload) (c : Cache)
    (i : EntryID) (rw : Bool) :
    ((∀ r ∈ c.c_idtree, (P r).e_id ≠ i) →
      cache_find_entry_id_step P c i rw = (IdFind.absent, c)) ∧
    (∀ ep, c.c_idtree.find? (fun r => (P r).e_id == i) = some ep →
      stateOf c ep = some CState.ready → trylockBusy c ep rw = false →
      (cache_find_entry_id_step P c i rw).1 = IdFind.found ep ∧
      (cache_find_entry_id_step P c i rw).2.c_lru =
        ep :: c.c_lru.erase ep ∧
      refcntOf (cache_find_entry_id_step P c i rw).2 ep =
        refcntOf c ep + 1 ∧
      (cache_find_entry_id_step P c i rw).2.c_dntree = c.c_dntree ∧
      (cache_find_entry_id_step P c i rw).2.c_idtree = c.c_idtree ∧
      (cache_find_entry_id_step P c i rw).2.c_cursize = c.c_cursize) ∧
    (∀ ep, c.c_idtree.find? (fun r => (P r).e_id == i) = some ep →
      (stateOf c ep ≠ some CState.ready ∨ trylockBusy c ep rw = true) →
      cache_find_entry_id_step P c i rw = (IdFind.retry, c) ∧
      ∀ n : Nat, cache_find_entry_id P (n + 1) c i rw =
        cache_find_entry_id P n c i rw) := by
  refine ⟨?_, ?_, ?_⟩
  · intro habs
    exact fid_absent P c i rw (find_key_none (fun r => (P r).e_id) _ i habs)
  · intro ep hfind hst hb
    obtain ⟨j, hj, hjs⟩ := info_some_of_state c ep CState.ready hst
    have hlock : (cache_entry_rdwr_lock c ep rw).c_info ep =
        some (if rw then { j with lei_writer := true }
              else { j with lei_readers := j.lei_readers + 1 }) := by
      show (modInfo c ep _).c_info ep = _
      rw [modInfo_info]
      simp [hj]
    rw [fid_found P c i rw ep hfind hst hb]
    refine ⟨rfl, rfl, ?_, rfl, rfl, rfl⟩
    have hrec : ({ cache_entry_rdwr_lock c ep rw with
        c_lru := ep :: (cache_entry_rdwr_lock c ep rw).c_lru.erase ep }
          : Cache).c_info ep =
        some (if rw then { j with lei_writer := true }
              else { j with lei_readers := j.lei_readers + 1 }) := hlock
    have hfin : (modInfo { cache_entry_rdwr_lock c ep rw with
        c_lru := ep :: (cache_entry_rdwr_lock c ep rw).c_lru.erase ep } ep
        (fun k => { k with lei_refcnt := k.lei_refcnt + 1 })).c_info ep =
        some { lei_state := j.lei_state, lei_refcnt := j.lei_refcnt + 1,
               lei_readers := if rw then j.lei_readers
                 else j.lei_readers + 1,
               lei_writer := if rw then true else j.lei_writer } := by
      rw [modInfo_info]
      rw [if_pos rfl, hrec]
      cases rw <;> simp
    rw [refcnt_of_info_some _ ep _ hfin, refcnt_of_info_some c ep j hj]
  · intro ep hfind hcase
    have hretry : cache_find_entry_id_step P c i rw = (IdFind.retry, c) := by
      rcases hcase with h | h
      · exact fid_notready P c i rw ep hfind h
      · by_cases hst : stateOf c ep = some CState.ready
        · exact fid_busy P c i rw ep hfind hst h
        · exact fid_notready P c i rw ep hfind hst
    exact ⟨hretry, fun n => find_id_fuel_succ P n c c i rw hretry⟩

theorem claim_C5_witness :
    cache_find_entry_id_step Pabc (cacheInit 4) 7 true =
      (IdFind.absent, cacheInit 4) :=
  (claim_C5_lookup_id_step Pabc (cacheInit 4) 7 true).1 (by
    intro r hr
    simp [cacheInit] at hr)

/-- C6: releasing an entry still in state `CREATING` (no prior commit)
aborts the creation: the entry is detached from both indexes and the
LRU, `c_cursize` drops by one, the slot (set to `DELETED` by the
internal delete) is destroyed, the payload is *not* freed — ownership
reverts to the inserter — and afterwards `lookup_id` of its id reports
absent and `lookup_name` of its name reports `NOID`. -/
theorem claim_C6_release_aborted_creation (P : Ref → Payload) (c : Cache)
    (e : Ref) (rw : Bool) (hWF : WF P c)
    (hst : stateOf c e = some CState.creating)
    (hrc : refcntOf c e = 1) :
    e ∉ (cache_return_entry_rw P c e rw).c_dntree ∧
    e ∉ (cache_return_entry_rw P c e rw).c_idtree ∧
    e ∉ (cache_return_entry_rw P c e rw).c_lru ∧
    (cache_return_entry_rw P c e rw).c_cursize = c.c_cursize - 1 ∧
    (cache_return_entry_rw P c e rw).c_freed = c.c_freed ∧
    (cache_return_entry_rw P c e rw).c_info e = none ∧
    (∀ m : Bool, (cache_find_entry_id_step P (cache_return_entry_rw P c e rw)
      (P e).e_id m).1 = IdFind.absent) ∧
    (cache_find_entry_ndn2id_step P (cache_return_entry_rw P c e rw)
      (P e).e_nname).1 = NameFind.noid := by
  obtain ⟨j, hj, hjs⟩ := info_some_of_state c e CState.creating hst
  have hjr : j.lei_refcnt = 1 := by
    rw [refcnt_of_info_some c e j hj] at hrc
    exact hrc
  have helru : e ∈ c.c_lru := hWF.creating_resident e hst
  have hedn : e ∈ c.c_dntree := hWF.lru_sub_dn e helru
  have heid : e ∈ c.c_idtree := hWF.dn_sub_id e hedn
  have hrel := release_creating_zero_eq P c e rw j hWF hj hjs (by
    rw [hjr]; decide)
  rw [hrel]
  have hdn' : (cache_entry_private_destroy
      (detachedCache (modInfo c e (relFun rw)) e) e).c_dntree =
      c.c_dntree.erase e := rfl
  have hid' : (cache_entry_private_destroy
      (detachedCache (modInfo c e (relFun rw)) e) e).c_idtree =
      c.c_idtree.erase e := rfl
  have hlru' : (cache_entry_private_destroy
      (detachedCache (modInfo c e (relFun rw)) e) e).c_lru =
      c.c_lru.erase e := rfl
  have hnotdn : e ∉ c.c_dntree.erase e := by
    intro hmem
    exact (((dn_nodup hWF).mem_erase_iff).mp hmem).1 rfl
  have hnotid : e ∉ c.c_idtree.erase e := by
    intro hmem
    exact (((id_nodup hWF).mem_erase_iff).mp hmem).1 rfl
  have hnotlru : e ∉ c.c_lru.erase e := by
    intro hmem
    exact ((hWF.lru_nodup.mem_erase_iff).mp hmem).1 rfl
  have hinfo : (cache_entry_private_destroy
      (detachedCache (modInfo c e (relFun rw)) e) e).c_info e = none := by
    simp [cache_entry_private_destroy, delInfo]
  have hfid : ∀ r ∈ c.c_idtree.erase e, (P r).e_id ≠ (P e).e_id := by
    intro r hmem
    rcases ((id_nodup hWF).mem_erase_iff).mp hmem with ⟨hne, hr⟩
    exact map_nodup_key_ne (fun r => (P r).e_id) c.c_idtree
      hWF.ids_nodup e r heid hr hne
  have hfdn : ∀ r ∈ c.c_dntree.erase e, (P r).e_nname ≠ (P e).e_nname := by
    intro r hmem
    rcases ((dn_nodup hWF).mem_erase_iff).mp hmem with ⟨hne, hr⟩
    exact map_nodup_key_ne (fun r => (P r).e_nname) c.c_dntree
      hWF.names_nodup e r hedn hr hne
  refine ⟨hdn' ▸ hnotdn, hid' ▸ hnotid, hlru' ▸ hnotlru, rfl, rfl, hinfo,
    ?_, ?_⟩
  · intro m
    rw [fid_absent P _ (P e).e_id m (find_key_none (fun r => (P r).e_id) _ _
      (hid' ▸ hfid))]
  · rw [fnd_noid P _ (P e).e_nname (find_key_none (fun r => (P r).e_nname) _ _
      (hdn' ▸ hfdn))]

theorem claim_C6_witness :
    2 ∉ (cache_return_entry_rw Pabc cAborted 2 true).c_dntree ∧
    (cache_return_entry_rw Pabc cAborted 2 true).c_cursize =
      cAborted.c_cursize - 1 ∧
    (cache_return_entry_rw Pabc cAborted 2 true).c_info 2 = none := by
  have h := claim_C6_release_aborted_creation Pabc cAborted 2 true
    (WF_of_reachable Pabc cAborted
      (Reachable.step (Reachable.init 4 (by decide)) (by decide)))
    (by decide) (by decide)
  exact ⟨h.1, h.2.2.2.1, h.2.2.2.2.2.1⟩

/-- C7: deleting a resident entry held by a caller detaches it from
both indexes and the LRU, decrements `c_cursize`, and marks its slot
`DELETED`; the slot stays attached and the refcount is untouched, so
outstanding borrows remain valid, and a subsequent `lookup_id` reports
absent; the slot is destroyed and the payload freed exactly by the
release that brings the refcount to zero. -/
theorem claim_C7_delete_deferred_free (P : Ref → Payload) (c : Cache)
    (e : Ref) (rw : Bool) (k : Int) (hWF : WF P c)
    (he : e ∈ c.c_idtree) (hrc : refcntOf c e = k) (hk : 0 < k) :
    (cache_delete_entry P c e).1 = 0 ∧
    e ∉ (cache_delete_entry P c e).2.c_dntree ∧
    e ∉ (cache_delete_entry P c e).2.c_idtree ∧
    e ∉ (cache_delete_entry P c e).2.c_lru ∧
    (cache_delete_entry P c e).2.c_cursize = c.c_cursize - 1 ∧
    stateOf (cache_delete_entry P c e).2 e = some CState.deleted ∧
    refcntOf (cache_delete_entry P c e).2 e = k ∧
    (cache_delete_entry P c e).2.c_freed = c.c_freed ∧
    ((cache_delete_entry P c e).2.c_info e).isSome = true ∧
    (∀ m : Bool, (cache_find_entry_id_step P (cache_delete_entry P c e).2
      (P e).e_id m).1 = IdFind.absent) ∧
    (k = 1 →
      (cache_return_entry_rw P (cache_delete_entry P c e).2 e rw).c_info e
        = none ∧
      (cache_return_entry_rw P (cache_delete_entry P c e).2 e rw).c_freed
        = e :: c.c_freed) ∧
    (1 < k →
      ((cache_return_entry_rw P (cache_delete_entry P c e).2 e rw).c_info e
        ).isSome = true ∧
      (cache_return_entry_rw P (cache_delete_entry P c e).2 e rw).c_freed
        = c.c_freed) := by
  have helru : e ∈ c.c_lru := hWF.id_sub_lru e he
  have hedn : e ∈ c.c_dntree := hWF.lru_sub_dn e helru
  obtain ⟨j, hj⟩ := Option.isSome_iff_exists.mp (hWF.mem_info e helru)
  have hjr : j.lei_refcnt = k := by
    rw [refcnt_of_info_some c e j hj] at hrc
    exact hrc
  have hint : cache_delete_entry P c e = (0, detachedCache c e) :=
    internal_delete_of_resident P c e hWF hedn
  rw [hint]
  have hinfo1 : (detachedCache c e).c_info e =
      some { j with lei_state := CState.deleted } := by
    show setInfoFn c.c_info e _ e = _
    rw [setInfoFn_same, hj]
    rfl
  have hnotdn : e ∉ c.c_dntree.erase e := by
    intro hmem
    exact (((dn_nodup hWF).mem_erase_iff).mp hmem).1 rfl
  have hnotid : e ∉ c.c_idtree.erase e := by
    intro hmem
    exact (((id_nodup hWF).mem_erase_iff).mp hmem).1 rfl
  have hnotlru : e ∉ c.c_lru.erase e := by
    intro hmem
    exact ((hWF.lru_nodup.mem_erase_iff).mp hmem).1 rfl
  have hfid : ∀ r ∈ c.c_idtree.erase e, (P r).e_id ≠ (P e).e_id := by
    intro r hmem
    rcases ((id_nodup hWF).mem_erase_iff).mp hmem with ⟨hne, hr⟩
    exact map_nodup_key_ne (fun r => (P r).e_id) c.c_idtree
      hWF.ids_nodup e r he hr hne
  refine ⟨rfl, hnotdn, hnotid, hnotlru, rfl, ?_, ?_, rfl, ?_, ?_, ?_, ?_⟩
  · simp [stateOf, hinfo1]
  · rw [refcnt_of_info_some _ e _ hinfo1]
    exact hjr
  · rw [hinfo1]
    rfl
  · intro m
    rw [fid_absent P _ (P e).e_id m
      (find_key_none (fun r => (P r).e_id) _ _ hfid)]
  · intro hk1
    have hrel := release_deleted_zero_eq P (detachedCache c e) e rw
      { j with lei_state := CState.deleted } hinfo1 rfl (by
        simp [hjr, hk1])
    rw [hrel]
    constructor
    · simp [cache_entry_private_destroy, delInfo]
    · rfl
  · intro hk1
    have hrel := release_deleted_pos_eq P (detachedCache c e) e rw
      { j with lei_state := CState.deleted } hinfo1 rfl (by
        simp [hjr]
        omega)
    rw [hrel]
    constructor
    · have : (modInfo (detachedCache c e) e (relFun rw)).c_info e =
          some (relFun rw { j with lei_state := CState.deleted }) := by
        rw [modInfo_info, if_pos rfl, hinfo1]
        rfl
      rw [this]
      rfl
    · rfl

theorem claim_C7_witness :
    (cache_delete_entry Pabc cPinned 1).1 = 0 ∧
    1 ∉ (cache_delete_entry Pabc cPinned 1).2.c_idtree ∧
    stateOf (cache_delete_entry Pabc cPinned 1).2 1 =
      some CState.deleted ∧
    (cache_return_entry_rw Pabc (cache_delete_entry Pabc cPinned 1).2 1
      false).c_freed = 1 :: cPinned.c_freed := by
  have h := claim_C7_delete_deferred_free Pabc cPinned 1 false 1
    (WF_of_reachable Pabc cPinned
      (Reachable.step (Reachable.step (Reachable.step (Reachable.step
        (Reachable.init 4 (by decide)) (by decide)) (by decide))
        (by decide)) (by decide)))
    (by decide) (by decide) (by decide)
  obtain ⟨g1, g2, g3, g4, g5, g6, g7, g8, g9, g10, g11, g12⟩ := h
  refine ⟨g1, g3, g6, ?_⟩
  rw [(g11 rfl).2]

/-- C4 counterexample: on a cache of bound 1 holding two pinned
entries, inserting a third succeeds (outcome 0) and the entry is
resident, but the Phase-A eviction splices move a pinned entry above
it, so the freshly inserted entry is *not* at the LRU head. -/
theorem claim_C4_cex :
    (cache_add_entry_rw Pabc cMax1Two 3 true).1 = 0 ∧
    3 ∈ (cache_add_entry_rw Pabc cMax1Two 3 true).2.c_lru ∧
    ¬((cache_add_entry_rw Pabc cMax1Two 3 true).2.c_lru.head? = some 3) := by
  decide

/-- C4 (amended): on a successful insert the entry is present in both
indexes and in the LRU list — it is pushed at the LRU head, but the
Phase-A eviction splices may move other pinned entries above it, so it
is guaranteed to be the head only when no eviction ran — its slot is
`CREATING` with refcount 1, and the caller holds the entry's `rwlock`
in the requested mode. -/
theorem claim_C4_insert_success (P : Ref → Payload) (c : Cache) (e : Ref)
    (rw : Bool) (hWF : WF P c) (h0 : c.c_info e = none)
    (hdn : c.c_dntree.any (entry_dn_match P e) = false)
    (hid : c.c_idtree.any (entry_id_match P e) = false) :
    (cache_add_entry_rw P c e rw).1 = 0 ∧
    e ∈ (cache_add_entry_rw P c e rw).2.c_dntree ∧
    e ∈ (cache_add_entry_rw P c e rw).2.c_idtree ∧
    e ∈ (cache_add_entry_rw P c e rw).2.c_lru ∧
    stateOf (cache_add_entry_rw P c e rw).2 e = some CState.creating ∧
    refcntOf (cache_add_entry_rw P c e rw).2 e = 1 ∧
    lockHeld (cache_add_entry_rw P c e rw).2 e rw = true ∧
    (c.c_cursize + 1 ≤ c.c_maxsize →
      (cache_add_entry_rw P c e rw).2.c_lru.head? = some e) := by
  obtain ⟨h1, hWF2, hinfo, hmdn, hmid, hmlru⟩ :=
    add_success_resident P c e rw hWF h0 hdn hid
  refine ⟨h1, hmdn, hmid, hmlru, ?_, ?_, ?_, ?_⟩
  · simp [stateOf, hinfo]
  · rw [refcnt_of_info_some _ e _ hinfo]
  · cases rw <;> simp [lockHeld, writerOf, readersOf, hinfo]
  · intro hfits
    rw [add_success P c e rw h0 hdn hid]
    rw [if_neg (by omega)]
    rfl

theorem claim_C4_witness :
    (cache_add_entry_rw Pabc (cacheInit 4) 1 true).1 = 0 ∧
    (cache_add_entry_rw Pabc (cacheInit 4) 1 true).2.c_lru.head? =
      some 1 := by
  have h := claim_C4_insert_success Pabc (cacheInit 4) 1 true
    (WF_cacheInit Pabc 4) rfl rfl rfl
  exact ⟨h.1, h.2.2.2.2.2.2.2 (by decide)⟩

/-- C3: the round-trip law — for an entry not previously resident,
`insert(e, Write); commit(e); release(e, Write); lookup_id(e.id, Read)`
returns a borrow of exactly that entry (so its payload equals `e`'s):
the release of a committed entry publishes it as `READY`. -/
theorem claim_C3_roundtrip (P : Ref → Payload) (c : Cache) (e : Ref)
    (hWF : WF P c) (h0 : c.c_info e = none)
    (hdn : c.c_dntree.any (entry_dn_match P e) = false)
    (hid : c.c_idtree.any (entry_id_match P e) = false) :
    (cache_find_entry_id_step P
      (cache_return_entry_rw P
        (cache_entry_commit (cache_add_entry_rw P c e true).2 e) e true)
      (P e).e_id false).1 = IdFind.found e := by
  obtain ⟨h1, hWF1, hinfo1, hmdn, hmid, hmlru⟩ :=
    add_success_resident P c e true hWF h0 hdn hid
  have hinfo2 : (cache_entry_commit (cache_add_entry_rw P c e true).2
      e).c_info e =
      some { lei_state := CState.committed, lei_refcnt := 1,
             lei_readers := 0, lei_writer := true } := by
    show (modInfo _ e _).c_info e = _
    rw [modInfo_info, if_pos rfl, hinfo1]
    rfl
  have hWF2 : WF P (cache_entry_commit (cache_add_entry_rw P c e true).2 e) :=
    WF_commit P _ e hWF1
  have hrel := release_committed_eq P
    (cache_entry_commit (cache_add_entry_rw P c e true).2 e) e true
    { lei_state := CState.committed, lei_refcnt := 1,
      lei_readers := 0, lei_writer := true } hinfo2 rfl
  have hWF3 : WF P (cache_return_entry_rw P
      (cache_entry_commit (cache_add_entry_rw P c e true).2 e) e true) :=
    WF_release P _ e true hWF2 (by rw [hinfo2]; rfl)
  have hinfo3 : (cache_return_entry_rw P
      (cache_entry_commit (cache_add_entry_rw P c e true).2 e) e
      true).c_info e =
      some { lei_state := CState.ready, lei_refcnt := 0,
             lei_readers := 0, lei_writer := false } := by
    rw [hrel]
    show (modInfo (modInfo _ e _) e _).c_info e = _
    rw [modInfo_modInfo, modInfo_info, if_pos rfl, hinfo2]
    rfl
  have hid3 : e ∈ (cache_return_entry_rw P
      (cache_entry_commit (cache_add_entry_rw P c e true).2 e) e
      true).c_idtree := by
    rw [hrel]
    exact hmid
  have hfind : (cache_return_entry_rw P
      (cache_entry_commit (cache_add_entry_rw P c e true).2 e) e
      true).c_idtree.find? (fun r => (P r).e_id == (P e).e_id) = some e :=
    find_key_self (fun r => (P r).e_id) _ e hWF3.ids_nodup hid3
  have hst : stateOf (cache_return_entry_rw P
      (cache_entry_commit (cache_add_entry_rw P c e true).2 e) e true) e =
      some CState.ready := by
    simp [stateOf, hinfo3]
  have hb : trylockBusy (cache_return_entry_rw P
      (cache_entry_commit (cache_add_entry_rw P c e true).2 e) e true) e
      false = false := by
    simp [trylockBusy, writerOf, hinfo3]
  rw [fid_found P _ (P e).e_id false e hfind hst hb]

theorem claim_C3_witness :
    (cache_find_entry_id_step Pabc
      (cache_return_entry_rw Pabc
        (cache_entry_commit (cache_add_entry_rw Pabc (cacheInit 4) 1
          true).2 1) 1 true)
      (Pabc 1).e_id false).1 = IdFind.found 1 :=
  claim_C3_roundtrip Pabc (cacheInit 4) 1 (WF_cacheInit Pabc 4) rfl rfl rfl

/-- C8: eviction runs in two phases. Phase A is the 10-fold iterate of
a step that splices an in-use LRU tail to the head (and does nothing
once the tail is unused) — it only reorders the LRU, touching no other
component. Phase B repeatedly performs the internal delete of the tail,
destroys its slot and frees its payload (`evictTail`) exactly while the
tail has refcount 0 and the cache is over `c_maxsize`; pinned entries
survive with their slots untouched, everything freed was an unused
resident, and on exit the LRU is empty, its tail is pinned, or the size
is within the bound. -/
theorem claim_C8_two_phase_eviction (P : Ref → Payload) (c : Cache)
    (hWF : WF P c) :
    cache_evict P c =
      phaseBgo P ((phaseAgo c 10).c_lru.length) (phaseAgo c 10) ∧
    phaseAgo c 10 = spliceStep^[10] c ∧
    (∀ (c0 : Cache) (ee : Ref), c0.c_lru.getLast? = some ee →
      (refcntOf c0 ee ≠ 0 →
        spliceStep c0 = { c0 with c_lru := ee :: c0.c_lru.erase ee }) ∧
      (refcntOf c0 ee = 0 → spliceStep c0 = c0)) ∧
    ((phaseAgo c 10).c_dntree = c.c_dntree ∧
     (phaseAgo c 10).c_idtree = c.c_idtree ∧
     (phaseAgo c 10).c_cursize = c.c_cursize ∧
     (phaseAgo c 10).c_info = c.c_info ∧
     (phaseAgo c 10).c_freed = c.c_freed ∧
     (phaseAgo c 10).c_lru.Perm c.c_lru) ∧
    (∀ (n : Nat) (c0 : Cache) (ee : Ref), c0.c_lru.getLast? = some ee →
      (refcntOf c0 ee = 0 ∧ c0.c_maxsize < c0.c_cursize →
        phaseBgo P (n + 1) c0 = phaseBgo P n (evictTail P c0 ee)) ∧
      (¬(refcntOf c0 ee = 0 ∧ c0.c_maxsize < c0.c_cursize) →
        phaseBgo P (n + 1) c0 = c0)) ∧
    (∀ r ∈ c.c_lru, refcntOf c r ≠ 0 →
      r ∈ (cache_evict P c).c_lru ∧
      (cache_evict P c).c_info r = c.c_info r) ∧
    (∀ r, r ∈ (cache_evict P c).c_freed → r ∉ c.c_freed →
      refcntOf c r = 0 ∧ r ∈ c.c_lru) ∧
    ((cache_evict P c).c_lru = [] ∨
     (∃ t, (cache_evict P c).c_lru.getLast? = some t ∧
       refcntOf (cache_evict P c) t ≠ 0) ∨
     (cache_evict P c).c_cursize ≤ (cache_evict P c).c_maxsize) := by
  rcases phaseAgo_spec 10 c with ⟨a1, a2, a3, a4, a5, a6, a7⟩
  have hWFA : WF P (phaseAgo c 10) := WF_phaseAgo P c 10 hWF
  rcases phaseBgo_spec P (phaseAgo c 10).c_lru.length (phaseAgo c 10) hWFA
    with ⟨b1, b2, b3, b4, b5⟩
  refine ⟨rfl, phaseAgo_eq_iterate 10 c, ?_, ⟨a1, a2, a3, a5, a6, a7⟩,
    ?_, ?_, ?_, ?_⟩
  · intro c0 ee h
    constructor
    · intro hrc
      rw [spliceStep_of_tail c0 ee h, if_pos hrc]
    · intro hrc
      rw [spliceStep_of_tail c0 ee h, if_neg (fun hcon => hcon hrc)]
  · intro n c0 ee h
    constructor
    · intro hg
      rw [phaseBgo_succ_of_tail P c0 n ee h, if_pos hg]
    · intro hg
      rw [phaseBgo_succ_of_tail P c0 n ee h, if_neg hg]
  · intro r hr hrc
    have hrcA : refcntOf (phaseAgo c 10) r ≠ 0 := by
      simpa [refcntOf, a5] using hrc
    rcases b3 r hrcA with ⟨p1, p2, _, _⟩
    exact ⟨p2 (a7.mem_iff.mpr hr), p1.trans (by rw [a5])⟩
  · intro r hf hnf
    rcases b4 r hf with h | h
    · rw [a6] at h
      exact absurd h hnf
    · rcases h with ⟨hrc, hm⟩
      refine ⟨?_, a7.mem_iff.mp hm⟩
      rw [← hrc]
      simp [refcntOf, a5]
  · exact b5 (le_refl _)

theorem claim_C8_witness :
    phaseAgo (cacheInit 2) 10 = spliceStep^[10] (cacheInit 2) :=
  (claim_C8_two_phase_eviction Pabc (cacheInit 2)
    (WF_cacheInit Pabc 2)).2.1

/-- C9 counterexample: on a cache of bound 1, insert two entries (both
pinned by their inserters, so eviction cannot remove them), commit and
release both.  Release runs no eviction, so the final reachable state
has `cursize = 2`, `maxsize = 1` and no pinned entry: the claimed bound
`cursize ≤ maxsize + pinned_count` fails after a public operation. -/
theorem claim_C9_cex :
    Reachable Pabc c9trace ∧
    ¬(c9trace.c_cursize ≤ c9trace.c_maxsize +
      (pinnedCount c9trace : Int)) := by
  constructor
  · exact Reachable.step (Reachable.step (Reachable.step (Reachable.step
      (Reachable.step (Reachable.step (Reachable.init 1 (by decide))
      (by decide)) (by decide)) (by decide)) (by decide)) (by decide))
      (by decide)
  · decide

/-- C9 (amended): eviction runs only on the insert path, so the bound
holds only there and in the weaker form the code enforces: after a
successful insert, either `cursize ≤ maxsize` or the LRU tail is pinned
(`refcount ≠ 0`).  After non-growing operations (e.g. the release of a
pinned entry) `cursize` may exceed `maxsize + pinned_count`. -/
theorem claim_C9_insert_soft_bound (P : Ref → Payload) (c : Cache)
    (e : Ref) (rw : Bool) (hWF : WF P c) (h0 : c.c_info e = none)
    (hdn : c.c_dntree.any (entry_dn_match P e) = false)
    (hid : c.c_idtree.any (entry_id_match P e) = false)
    (hm : 0 ≤ c.c_maxsize) :
    (cache_add_entry_rw P c e rw).2.c_cursize ≤
      (cache_add_entry_rw P c e rw).2.c_maxsize ∨
    (∃ t, (cache_add_entry_rw P c e rw).2.c_lru.getLast? = some t ∧
      refcntOf (cache_add_entry_rw P c e rw).2 t ≠ 0) := by
  have hdn' : ∀ r ∈ c.c_dntree, (P r).e_nname ≠ (P e).e_nname := by
    intro r hr
    have := (List.any_eq_false.mp hdn) r hr
    simpa [entry_dn_match] using this
  have hid' : ∀ r ∈ c.c_idtree, (P r).e_id ≠ (P e).e_id := by
    intro r hr
    have := (List.any_eq_false.mp hid) r hr
    simpa [entry_id_match] using this
  have hWFi : WF P (insertedCache c e rw) :=
    WF_inserted P c e rw hWF h0 hdn' hid'
  rw [add_success P c e rw h0 hdn hid]
  by_cases hev : c.c_maxsize < c.c_cursize + 1
  · rw [if_pos hev]
    rcases phaseAgo_spec 10 (insertedCache c e rw) with
      ⟨_, _, _, a4, _, _, _⟩
    have hWFA : WF P (phaseAgo (insertedCache c e rw) 10) :=
      WF_phaseAgo P _ 10 hWFi
    rcases phaseBgo_spec P
      (phaseAgo (insertedCache c e rw) 10).c_lru.length
      (phaseAgo (insertedCache c e rw) 10) hWFA with ⟨b1, b2, _, _, b5⟩
    rcases b5 (le_refl _) with hnil | hpin | hle
    · left
      have hc0 : (cache_evict P (insertedCache c e rw)).c_cursize = 0 := by
        show (phaseBgo P (phaseAgo (insertedCache c e rw) 10).c_lru.length
          (phaseAgo (insertedCache c e rw) 10)).c_cursize = 0
        rw [b1.size_eq, hnil]
        simp
      have hmx : (cache_evict P (insertedCache c e rw)).c_maxsize =
          c.c_maxsize := by
        show (phaseBgo P (phaseAgo (insertedCache c e rw) 10).c_lru.length
          (phaseAgo (insertedCache c e rw) 10)).c_maxsize = c.c_maxsize
        rw [b2]
        exact a4
      rw [hc0, hmx]
      exact hm
    · right
      exact hpin
    · left
      exact hle
  · rw [if_neg hev]
    left
    show c.c_cursize + 1 ≤ c.c_maxsize
    omega

theorem claim_C9_witness :
    (cache_add_entry_rw Pabc (cacheInit 4) 1 true).2.c_cursize ≤
      (cache_add_entry_rw Pabc (cacheInit 4) 1 true).2.c_maxsize ∨
    (∃ t, (cache_add_entry_rw Pabc (cacheInit 4) 1 true).2.c_lru.getLast?
      = some t ∧
      refcntOf (cache_add_entry_rw Pabc (cacheInit 4) 1 true).2 t ≠ 0) :=
  claim_C9_insert_soft_bound Pabc (cacheInit 4) 1 true
    (WF_cacheInit Pabc 4) rfl rfl rfl (by decide)

end LdbmCache
